import Mathlib

/-!
Verification development for the schema-matching and validation engine in
`core/validator.py`.  The Python functions are shallowly embedded as Lean
definitions: dictionaries become association lists (`List (String × α)`),
numbers become `ℚ`, rows become association lists from column name to raw
string value, and code that can raise a Python exception returns
`Except String α`.  External-library behaviour is embedded as follows:
`Levenshtein.ratio a b` is `2·LCS(a,b)/(|a|+|b|)` (the indel similarity the
`python-Levenshtein` package computes), `re` patterns are interpreted over the
small sub-language actually exercised by the schemas (literals, `.`, `*`, `+`,
optional leading `^`, optional trailing `$`; anything else, e.g. an unclosed
`[`, is a compile error, mirroring `re.error`), and `float(...)` parsing
accepts an optional sign, digits with an optional dot, and an optional
exponent.
-/

namespace Validator

/-- Decidable equality for `Except`, needed to `decide` concrete runs of the
embedded fallible functions. -/
instance exceptDecEq {ε α : Type} [DecidableEq ε] [DecidableEq α] :
    DecidableEq (Except ε α)
  | .ok a, .ok b =>
    if h : a = b then .isTrue (by rw [h]) else .isFalse (fun h' => h (Except.ok.inj h'))
  | .ok _, .error _ => .isFalse (fun h' => Except.noConfusion h')
  | .error _, .ok _ => .isFalse (fun h' => Except.noConfusion h')
  | .error e, .error e' =>
    if h : e = e' then .isTrue (by rw [h]) else .isFalse (fun h' => h (Except.error.inj h'))

/-- First-match association-list lookup, mirroring Python `dict.get(k)`
(keys are unique in the dictionaries the source builds, and Python lookup
returns the stored value for the key). -/
def alookup {α : Type} : List (String × α) → String → Option α
  | [], _ => none
  | (k, v) :: rest, key => if k = key then some v else alookup rest key

/-- Python `dict.get(k, d)`. -/
def alookupD {α : Type} (l : List (String × α)) (key : String) (d : α) : α :=
  (alookup l key).getD d

/-- Python `dict` insertion `d[k] = v`: if the key is present its value is
replaced in place (keeping the original position), otherwise the pair is
appended at the end. -/
def dinsert {α : Type} (key : String) (v : α) : List (String × α) → List (String × α)
  | [] => [(key, v)]
  | (k, v') :: rest => if k = key then (key, v) :: rest else (k, v') :: dinsert key v rest

/-- A data row: mapping from column name to raw string value. -/
def Row : Type := List (String × String)

/-- Python `row.get(column, "")`. -/
def getVal (row : Row) (column : String) : String :=
  alookupD row column ""

/-- Python `str.lower()` (ASCII case folding, which is what the data uses). -/
def lowerStr (s : String) : String :=
  ⟨s.data.map Char.toLower⟩

/-- Python `s.replace(old_char, new_char)` for single characters. -/
def replaceChar (s : String) (old new : Char) : String :=
  ⟨s.data.map (fun c => if c = old then new else c)⟩

/-- Python `s.replace(c, "")` for a single character: drop every occurrence. -/
def dropChar (s : String) (c : Char) : String :=
  ⟨s.data.filter (fun x => x ≠ c)⟩

/-- The normalisation `field_name.lower().replace("_", "").replace(" ", "")`. -/
def normalizeName (s : String) : String :=
  dropChar (dropChar (lowerStr s) '_') ' '

/-- Python `str.startswith(p)`. -/
def startsWithStr (s p : String) : Bool :=
  p.data.isPrefixOf s.data

/-- Characters matched by the Python regex class `\s`. -/
def isPySpace (c : Char) : Bool :=
  c = ' ' ∨ c = '\t' ∨ c = '\n' ∨ c = '\r' ∨ c = '\x0b' ∨ c = '\x0c'

/-- ASCII decimal digit, as matched by `\d` on the ASCII data in play. -/
def isDigitChar (c : Char) : Bool :=
  '0' ≤ c ∧ c ≤ '9'

/-- Addition on `ℚ` computed through `mkRat`, which (unlike the `@[irreducible]`
`Rat.add` behind `+`) the kernel can evaluate; `qadd_eq` bridges to `+`
for the algebraic proofs. -/
def qadd (a b : ℚ) : ℚ := mkRat (a.num * b.den + b.num * a.den) (a.den * b.den)

/-- Multiplication on `ℚ` computed through `mkRat`. -/
def qmul (a b : ℚ) : ℚ := mkRat (a.num * b.num) (a.den * b.den)

/-- Inverse on `ℚ` computed through `Rat.divInt`. -/
def qinv (a : ℚ) : ℚ := Rat.divInt a.den a.num

/-- Division on `ℚ` computed through `mkRat` (`qdiv a 0 = 0`, as in `Rat`). -/
def qdiv (a b : ℚ) : ℚ := qmul a (qinv b)

/-- Negation on `ℚ` computed through `mkRat`. -/
def qneg (a : ℚ) : ℚ := mkRat (-a.num) a.den

/-- The power `10 ^ n` as a rational, computed in `ℕ`. -/
def pow10 (n : Nat) : ℚ := ((10 ^ n : ℕ) : ℚ)

theorem qadd_eq (a b : ℚ) : qadd a b = a + b := (Rat.add_def' a b).symm

theorem qmul_eq (a b : ℚ) : qmul a b = a * b := by
  rw [qmul, Rat.mul_def, Rat.mkRat_def]
  simp [Rat.normalize_eq_mkRat, Nat.mul_ne_zero a.den_nz b.den_nz]

theorem qinv_eq (a : ℚ) : qinv a = a⁻¹ := by
  rw [show a⁻¹ = a.inv from rfl, Rat.inv_def]; rfl

theorem qdiv_eq (a b : ℚ) : qdiv a b = a / b := by
  rw [qdiv, qmul_eq, qinv_eq]; exact (Rat.div_def a b).symm ▸ rfl

theorem qneg_eq (a : ℚ) : qneg a = -a := by
  rw [qneg, show (-a.num) = (-a).num from rfl, show a.den = (-a).den from rfl,
    Rat.mkRat_self]

/-- Longest common subsequence length, recursing on an explicit fuel so the
definition is structurally recursive (kernel-evaluable); `lcs` supplies the
always-sufficient budget `|a| + |b|`. -/
def lcsF : Nat → List Char → List Char → Nat
  | _, [], _ => 0
  | _, _ :: _, [] => 0
  | 0, _ :: _, _ :: _ => 0
  | fuel + 1, a :: as, b :: bs =>
    if a = b then lcsF fuel as bs + 1
    else max (lcsF fuel (a :: as) bs) (lcsF fuel as (b :: bs))

/-- Longest common subsequence length of two character lists. -/
def lcs (a b : List Char) : Nat :=
  lcsF (a.length + b.length) a b

/-- `Levenshtein.ratio` from the `python-Levenshtein` package: the indel
similarity `(|a|+|b| - dist)/(|a|+|b|)` where `dist` is the edit distance
with substitution weight 2; equivalently `2·LCS(a,b)/(|a|+|b|)`, and `1`
when both strings are empty. -/
def levSim (a b : String) : ℚ :=
  let la := a.data.length
  let lb := b.data.length
  if la + lb = 0 then 1
  else qdiv (qmul 2 (lcs a.data b.data : ℚ)) ((la + lb : ℕ) : ℚ)

/-- An atom of the embedded regex sub-language. -/
inductive RAtom where
  | dot
  | lit (c : Char)
  deriving DecidableEq, Repr

/-- A quantifier of the embedded regex sub-language. -/
inductive RQuant where
  | one
  | star
  | plus
  deriving DecidableEq, Repr

/-- Compiled regex: a sequence of quantified atoms plus an optional trailing
`$` anchor.  (A leading `^` is dropped during compilation: `re.match` already
anchors at the start of the string.) -/
structure RPat where
  items : List (RAtom × RQuant)
  dollar : Bool
  deriving DecidableEq, Repr

/-- Characters accepted as plain literals by the embedded pattern compiler.
Any other character (`[`, `(`, `\`, `?`, `{`, `|`, ...) is treated as a
compile failure, mirroring the fact that the only non-literal constructs
appearing in the source's patterns are `^ . * + $`. -/
def isPlainPatternChar (c : Char) : Bool :=
  c.isAlphanum ∨ c = ' ' ∨ c = '_' ∨ c = '-' ∨ c = ',' ∨ c = '/' ∨ c = ':' ∨ c = '@' ∨ c = '#'

/-- Pattern-compiler loop over the remaining characters; `acc` holds the
already-compiled items in reverse order. -/
def compileItems : List Char → List (RAtom × RQuant) → Option RPat
  | [], acc => some ⟨acc.reverse, false⟩
  | ['$'], acc => some ⟨acc.reverse, true⟩
  | c :: rest, acc =>
    if c = '.' then compileItems rest ((RAtom.dot, RQuant.one) :: acc)
    else if c = '*' then
      match acc with
      | (a, RQuant.one) :: acc' => compileItems rest ((a, RQuant.star) :: acc')
      | _ => none
    else if c = '+' then
      match acc with
      | (a, RQuant.one) :: acc' => compileItems rest ((a, RQuant.plus) :: acc')
      | _ => none
    else if isPlainPatternChar c then compileItems rest ((RAtom.lit c, RQuant.one) :: acc)
    else none

/-- Compile a pattern string, `none` modelling `re.error`. -/
def compileRegex (p : String) : Option RPat :=
  match p.data with
  | '^' :: rest => compileItems rest []
  | cs => compileItems cs []

/-- Does atom `a` match character `c`?  `.` matches anything but a newline
(no `DOTALL` flag is used in the source). -/
def amatch (a : RAtom) (c : Char) : Bool :=
  match a with
  | RAtom.dot => c ≠ '\n'
  | RAtom.lit k => c = k

/-- Python's `$` without `MULTILINE`: matches at the end of the string or
just before one trailing newline. -/
def dollarOk : List Char → Bool
  | [] => true
  | ['\n'] => true
  | _ => false

/-- Backtracking matcher worker.  Every recursive call strictly decreases
`items.length + s.length`, so the explicit fuel (which `rmatch` sets to that
sum) never runs out; the `0, _ :: _` equation is unreachable. -/
def rmatchF : Nat → List (RAtom × RQuant) → Bool → List Char → Bool
  | _, [], d, s => if d then dollarOk s else true
  | 0, _ :: _, _, _ => false
  | fuel + 1, (a, RQuant.one) :: rest, d, s =>
    match s with
    | [] => false
    | c :: s' => amatch a c && rmatchF fuel rest d s'
  | fuel + 1, (a, RQuant.plus) :: rest, d, s =>
    match s with
    | [] => false
    | c :: s' => amatch a c && rmatchF fuel ((a, RQuant.star) :: rest) d s'
  | fuel + 1, (a, RQuant.star) :: rest, d, s =>
    rmatchF fuel rest d s ||
      (match s with
       | [] => false
       | c :: s' => amatch a c && rmatchF fuel ((a, RQuant.star) :: rest) d s')

/-- Backtracking matcher for the compiled items against the characters of the
subject, anchored at the start (the semantics of `re.match`); without a `$`
anchor any remaining suffix is accepted. -/
def rmatch (items : List (RAtom × RQuant)) (d : Bool) (s : List Char) : Bool :=
  rmatchF (items.length + s.length) items d s

/-- `re.match(pattern, value)` as a Boolean; `none` models a raised
`re.error` for a malformed pattern. -/
def reMatch (pattern value : String) : Option Bool :=
  (compileRegex pattern).map (fun p => rmatch p.items p.dollar value.data)

/-- Numeric value of an ASCII digit. -/
def digitVal (c : Char) : Nat :=
  c.toNat - '0'.toNat

/-- Value of a digit string read in base 10. -/
def digitsToNat (cs : List Char) : Nat :=
  cs.foldl (fun acc c => 10 * acc + digitVal c) 0

/-- Mantissa-and-exponent grammar of Python `float(...)` (sign already
consumed): `digits [. digits] [e [sign] digits]` or `. digits [...]`.
The special forms `inf`/`nan` and digit-group underscores are not embedded;
no value in the claims exercises them. -/
def parseUnsignedFloat (cs : List Char) : Option ℚ :=
  let intPart := cs.takeWhile isDigitChar
  let rest1 := cs.dropWhile isDigitChar
  let (fracPart, rest2) :=
    match rest1 with
    | '.' :: r => (r.takeWhile isDigitChar, r.dropWhile isDigitChar)
    | _ => ([], rest1)
  if intPart.isEmpty ∧ fracPart.isEmpty then none
  else
    let mant : ℚ := qadd (digitsToNat intPart : ℚ)
      (qdiv (digitsToNat fracPart : ℚ) (pow10 fracPart.length))
    match rest2 with
    | [] => some mant
    | e :: r =>
      if e = 'e' ∨ e = 'E' then
        let (eneg, r') :=
          match r with
          | '+' :: r' => (false, r')
          | '-' :: r' => (true, r')
          | _ => (false, r)
        let eDigits := r'.takeWhile isDigitChar
        let r'' := r'.dropWhile isDigitChar
        if eDigits.isEmpty ∨ r'' ≠ [] then none
        else if eneg then some (qdiv mant (pow10 (digitsToNat eDigits)))
        else some (qmul mant (pow10 (digitsToNat eDigits)))
      else none

/-- Python `float(value)`: surrounding whitespace is stripped, then an
optional sign and the number grammar; `none` models a raised `ValueError`. -/
def parseFloat (s : String) : Option ℚ :=
  let cs := (s.data.dropWhile isPySpace).reverse.dropWhile isPySpace |>.reverse
  match cs with
  | '+' :: rest => parseUnsignedFloat rest
  | '-' :: rest => (parseUnsignedFloat rest).map qneg
  | rest => parseUnsignedFloat rest

/-- One directive of a `strptime` format string. -/
inductive FTok where
  | Y
  | mo
  | dy
  | bMon
  | bigB
  | ws
  | lit (c : Char)
  deriving DecidableEq, Repr

/-- Candidate parses for `%m` in the order CPython's `_strptime` regex
`1[0-2]|0[1-9]|[1-9]` tries them: each candidate is the parsed month and the
remaining input. -/
def monthCands : List Char → List (Nat × List Char)
  | [] => []
  | [c] => if '1' ≤ c ∧ c ≤ '9' then [(digitVal c, [])] else []
  | c₁ :: c₂ :: rest =>
    (if c₁ = '1' ∧ '0' ≤ c₂ ∧ c₂ ≤ '2' then [(10 + digitVal c₂, rest)] else []) ++
    (if c₁ = '0' ∧ '1' ≤ c₂ ∧ c₂ ≤ '9' then [(digitVal c₂, rest)] else []) ++
    (if '1' ≤ c₁ ∧ c₁ ≤ '9' then [(digitVal c₁, c₂ :: rest)] else [])

/-- Candidate parses for `%d`, per the CPython regex
`3[01]|[12]\d|0[1-9]|[1-9]`. -/
def dayCands : List Char → List (Nat × List Char)
  | [] => []
  | [c] => if '1' ≤ c ∧ c ≤ '9' then [(digitVal c, [])] else []
  | c₁ :: c₂ :: rest =>
    (if c₁ = '3' ∧ ('0' ≤ c₂ ∧ c₂ ≤ '1') then [(30 + digitVal c₂, rest)] else []) ++
    (if ('1' ≤ c₁ ∧ c₁ ≤ '2') ∧ isDigitChar c₂ then [(10 * digitVal c₁ + digitVal c₂, rest)] else []) ++
    (if c₁ = '0' ∧ '1' ≤ c₂ ∧ c₂ ≤ '9' then [(digitVal c₂, rest)] else []) ++
    (if '1' ≤ c₁ ∧ c₁ ≤ '9' then [(digitVal c₁, c₂ :: rest)] else [])

/-- `%Y` per CPython: exactly four digits. -/
def yearCand (cs : List Char) : Option (Nat × List Char) :=
  match cs with
  | a :: b :: c :: d :: rest =>
    if isDigitChar a ∧ isDigitChar b ∧ isDigitChar c ∧ isDigitChar d then
      some (digitsToNat [a, b, c, d], rest)
    else none
  | _ => none

/-- Abbreviated month names for `%b` (C locale), lower-cased. -/
def monthAbbrs : List (String × Nat) :=
  [("jan", 1), ("feb", 2), ("mar", 3), ("apr", 4), ("may", 5), ("jun", 6),
   ("jul", 7), ("aug", 8), ("sep", 9), ("oct", 10), ("nov", 11), ("dec", 12)]

/-- Full month names for `%B` (C locale), lower-cased. -/
def monthFulls : List (String × Nat) :=
  [("january", 1), ("february", 2), ("march", 3), ("april", 4), ("may", 5),
   ("june", 6), ("july", 7), ("august", 8), ("september", 9), ("october", 10),
   ("november", 11), ("december", 12)]

/-- Candidate parses for a month-name directive: the comparison is
case-insensitive (CPython compiles the format regex with `IGNORECASE`). -/
def nameCands (names : List (String × Nat)) (cs : List Char) : List (Nat × List Char) :=
  names.filterMap (fun p =>
    if (lowerStr ⟨cs.take p.1.data.length⟩) = p.1 ∧ p.1.data.length ≤ cs.length then
      some (p.2, cs.drop p.1.data.length)
    else none)

/-- Candidate parses for a whitespace run (`\s+` in the compiled format
regex): consume between 1 and all leading whitespace characters. -/
def wsCands (cs : List Char) : List (Nat × List Char) :=
  let k := (cs.takeWhile isPySpace).length
  (List.range k).map (fun i => (0, cs.drop (i + 1)))

/-- First successful candidate, in order — the backtracking of the regex
alternation. -/
def pickFirst {α : Type} : List (Nat × List Char) → (Nat → List Char → Option α) → Option α
  | [], _ => none
  | (v, rest) :: more, f =>
    match f v rest with
    | some r => some r
    | none => pickFirst more f

/-- Format-runner worker: recursion on an explicit fuel (one unit per
directive, so `runFmt`'s budget `toks.length` always suffices and the
`0, _ :: _` equation is unreachable), threading the captured year/month/day. -/
def runFmtF : Nat → List FTok → List Char → Option Nat → Option Nat → Option Nat →
    Option (Nat × Nat × Nat)
  | _, [], cs, y, mo, dy =>
    if cs = [] then
      match y, mo, dy with
      | some y, some mo, some dy => some (y, mo, dy)
      | _, _, _ => none
    else none
  | 0, _ :: _, _, _, _, _ => none
  | fuel + 1, FTok.lit c :: ts, cs, y, mo, dy =>
    match cs with
    | [] => none
    | x :: rest => if x = c then runFmtF fuel ts rest y mo dy else none
  | fuel + 1, FTok.Y :: ts, cs, _, mo, dy =>
    match yearCand cs with
    | some (v, rest) => runFmtF fuel ts rest (some v) mo dy
    | none => none
  | fuel + 1, FTok.mo :: ts, cs, y, _, dy =>
    pickFirst (monthCands cs) (fun v rest => runFmtF fuel ts rest y (some v) dy)
  | fuel + 1, FTok.dy :: ts, cs, y, mo, _ =>
    pickFirst (dayCands cs) (fun v rest => runFmtF fuel ts rest y mo (some v))
  | fuel + 1, FTok.bMon :: ts, cs, y, _, dy =>
    pickFirst (nameCands monthAbbrs cs) (fun v rest => runFmtF fuel ts rest y (some v) dy)
  | fuel + 1, FTok.bigB :: ts, cs, y, _, dy =>
    pickFirst (nameCands monthFulls cs) (fun v rest => runFmtF fuel ts rest y (some v) dy)
  | fuel + 1, FTok.ws :: ts, cs, y, mo, dy =>
    pickFirst (wsCands cs) (fun _ rest => runFmtF fuel ts rest y mo dy)

/-- Run a format over the input; succeeds only if the whole input is consumed
and all three components were captured (every format in the source's list
captures all three). -/
def runFmt (toks : List FTok) (cs : List Char) (y mo dy : Option Nat) :
    Option (Nat × Nat × Nat) :=
  runFmtF toks.length toks cs y mo dy

/-- Gregorian leap year, as `datetime` uses. -/
def leapYear (y : Nat) : Bool :=
  y % 4 = 0 ∧ (y % 100 ≠ 0 ∨ y % 400 = 0)

/-- Number of days in a month. -/
def daysInMonth (y m : Nat) : Nat :=
  if m = 2 then (if leapYear y then 29 else 28)
  else if m = 4 ∨ m = 6 ∨ m = 9 ∨ m = 11 then 30
  else 31

/-- `datetime.strptime(value, fmt)` succeeds: the format regex matches the
whole input and the captured components form a real calendar date
(`datetime` additionally requires `year ≥ 1`; the four-digit `%Y` already
bounds it by 9999). -/
def strptimeOk (fmt : List FTok) (value : String) : Bool :=
  match runFmt fmt value.data none none none with
  | some (y, mo, dy) => 1 ≤ y ∧ 1 ≤ dy ∧ dy ≤ daysInMonth y mo
  | none => false

/-- The fixed format list of `validate_date`, in source order:
`%Y-%m-%d`, `%d/%m/%Y`, `%m/%d/%Y`, `%d-%m-%Y`, `%m-%d-%Y`, `%d.%m.%Y`,
`%m.%d.%Y`, `%Y/%m/%d`, `%d %b %Y`, `%d %B %Y`. -/
def date_formats : List (List FTok) :=
  [[FTok.Y, FTok.lit '-', FTok.mo, FTok.lit '-', FTok.dy],
   [FTok.dy, FTok.lit '/', FTok.mo, FTok.lit '/', FTok.Y],
   [FTok.mo, FTok.lit '/', FTok.dy, FTok.lit '/', FTok.Y],
   [FTok.dy, FTok.lit '-', FTok.mo, FTok.lit '-', FTok.Y],
   [FTok.mo, FTok.lit '-', FTok.dy, FTok.lit '-', FTok.Y],
   [FTok.dy, FTok.lit '.', FTok.mo, FTok.lit '.', FTok.Y],
   [FTok.mo, FTok.lit '.', FTok.dy, FTok.lit '.', FTok.Y],
   [FTok.Y, FTok.lit '/', FTok.mo, FTok.lit '/', FTok.dy],
   [FTok.dy, FTok.ws, FTok.bMon, FTok.ws, FTok.Y],
   [FTok.dy, FTok.ws, FTok.bigB, FTok.ws, FTok.Y]]

/-- `validate_sa_id_number`: strip whitespace and hyphens, then require
exactly thirteen digits. -/
def validate_sa_id_number (value : String) : Bool :=
  let v := value.data.filter (fun c => ¬ (isPySpace c ∨ c = '-'))
  v.length = 13 ∧ v.all isDigitChar

/-- `validate_bank_account_number`: strip whitespace, hyphens and commas,
then require 6–12 characters that are digits or `*`. -/
def validate_bank_account_number (value : String) : Bool :=
  let v := value.data.filter (fun c => ¬ (isPySpace c ∨ c = '-' ∨ c = ','))
  6 ≤ v.length ∧ v.length ≤ 12 ∧ v.all (fun c => isDigitChar c ∨ c = '*')

/-- `validate_decimal_amount`: strip currency symbols, whitespace and commas,
then require the remainder to parse as a float. -/
def validate_decimal_amount (value : String) : Bool :=
  let v : String := ⟨value.data.filter (fun c => ¬ (c = '$' ∨ c = '£' ∨ c = '€' ∨ isPySpace c ∨ c = ','))⟩
  (parseFloat v).isSome

/-- `validate_postal_code`: strip whitespace, then require 4–10 characters
that are digits or hyphens. -/
def validate_postal_code (value : String) : Bool :=
  let v := value.data.filter (fun c => ¬ isPySpace c)
  4 ≤ v.length ∧ v.length ≤ 10 ∧ v.all (fun c => isDigitChar c ∨ c = '-')

/-- `validate_date`: try every format in `date_formats`, then fall back to a
numeric Unix timestamp, rejected outside `[0, 32503680000]`.
(`datetime.fromtimestamp` succeeds for every in-range value on the platforms
in play, so the range check alone decides the fallback.) -/
def validate_date (value : String) : Bool :=
  (date_formats.any (fun fmt => strptimeOk fmt value)) ||
    (match parseFloat value with
     | some ts => ¬ (ts < 0 ∨ ts > 32503680000)
     | none => false)

/-- A reference-list entry: a canonical name plus aliases. -/
structure ListItem where
  name : String
  aliases : List String
  deriving DecidableEq, Repr

/-- A schema field definition.  Every key is optional, mirroring the duck-typed
Python dictionaries; the source reads each key with `.get(key, default)`, which
the embedding renders as `Option.getD` at the use sites. -/
structure FieldDef where
  validate_type : Option String := none
  required : Option Bool := none
  slug : Option (List String) := none
  regex : Option String := none
  enum : Option String := none
  list : Option String := none
  distance : Option ℚ := none
  max_matches : Option Nat := none
  description : Option String := none
  deriving DecidableEq, Repr

/-- A schema object: ordered field definitions plus enum and list tables. -/
structure Schema where
  schema : List (String × FieldDef)
  enums : List (String × List String) := []
  lists : List (String × List ListItem) := []
  deriving DecidableEq, Repr

/-- The dictionary `validate_field_values` returns. -/
structure ValidationSummary where
  valid : Bool := false
  valid_count : Nat := 0
  total_count : Nat := 0
  valid_percentage : ℚ := 0
  errors : List String := []
  deriving DecidableEq, Repr

/-- The dictionary `find_best_column_match` returns. -/
structure FieldMatch where
  field : String
  column : Option String
  match_type : String
  score : ℚ
  similarity : Option ℚ := none
  validation : ValidationSummary
  deriving DecidableEq, Repr

/-- The `LEV_DISTANCE` loop of `validate_field_values`: the value is valid iff
some list item's name or alias reaches the field's `distance` threshold
(default 80). -/
def levMatchOk (f : FieldDef) (schema : Schema) (value : String) : Bool :=
  let list_items := alookupD schema.lists (f.list.getD "") []
  let min_distance := f.distance.getD 80
  list_items.any (fun item =>
    qmul (levSim (lowerStr item.name) (lowerStr value)) 100 ≥ min_distance ∨
    item.aliases.any (fun al =>
      qmul (levSim (lowerStr al) (lowerStr value)) 100 ≥ min_distance))

/-- One iteration of the validation loop of `validate_field_values`: judge one
value.  The `REGEX` arm re-compiles the pattern per value and raises on a
malformed pattern — there is no `try`/`except` around it in the source. -/
def checkValue (f : FieldDef) (schema : Schema) (value : String) : Except String Bool :=
  let vt := f.validate_type.getD "NONE"
  if value = "" ∧ f.required.getD false = false then .ok true
  else if vt = "REGEX" then
    match reMatch (f.regex.getD ".*") value with
    | none => .error "re.error: invalid pattern"
    | some b => .ok b
  else if vt = "SA_ID_NUMBER" then .ok (validate_sa_id_number value)
  else if vt = "BANK_ACCOUNT_NUMBER" then .ok (validate_bank_account_number value)
  else if vt = "DECIMAL_AMOUNT" then .ok (validate_decimal_amount value)
  else if vt = "UNIX_DATE" then .ok (validate_date value)
  else if vt = "POSTAL_CODE" then .ok (validate_postal_code value)
  else if vt = "ENUM" then .ok (decide (value ∈ alookupD schema.enums (f.enum.getD "") []))
  else if vt = "LEV_DISTANCE" then .ok (levMatchOk f schema value)
  else .ok true

/-- Judge every value in order, stopping at the first raised error (the Python
loop propagates the exception at the value that raised it). -/
def checkAll (f : FieldDef) (schema : Schema) : List String → Except String (List Bool)
  | [] => .ok []
  | v :: vs =>
    match checkValue f schema v with
    | .error e => .error e
    | .ok b =>
      match checkAll f schema vs with
      | .error e => .error e
      | .ok bs => .ok (b :: bs)

/-- The list of values `validate_field_values` judges: the column's value in
every row, with empty values dropped when the field is not required. -/
def fieldValuesOf (column_name : String) (f : FieldDef) (data : List Row) : List String :=
  let values0 := data.map (fun row => getVal row column_name)
  if f.required.getD false then values0 else values0.filter (fun v => v ≠ "")

/-- `validate_field_values(column_name, field_def, data, schema)`: extract the
column's values, drop empty values when the field is not required, judge each
value, and aggregate. -/
def validate_field_values (column_name : String) (f : FieldDef) (data : List Row)
    (schema : Schema) : Except String ValidationSummary :=
  let values := fieldValuesOf column_name f data
  match checkAll f schema values with
  | .error e => .error e
  | .ok bs =>
    let total_count := values.length
    let valid_count := bs.count true
    let errs := (((values.zip bs).filter (fun p => p.2 = false)).map
      (fun p => "Invalid value: " ++ p.1)).take 5
    .ok { valid := valid_count = total_count, valid_count := valid_count,
          total_count := total_count,
          valid_percentage :=
            if total_count > 0 then qmul (qdiv (valid_count : ℚ) (total_count : ℚ)) 100 else 0,
          errors := errs }

/-- The content-based first pass of `find_best_column_match`: validate every
still-unclaimed column's values and track the best score above 50. -/
def contentPass (field_name : String) (f : FieldDef) (data : List Row) (schema : Schema)
    (matched : List String) :
    List String → ℚ → Option FieldMatch → Except String (ℚ × Option FieldMatch)
  | [], best, bm => .ok (best, bm)
  | col :: cols, best, bm =>
    if col ∈ matched then contentPass field_name f data schema matched cols best bm
    else
      match validate_field_values col f data schema with
      | .error e => .error e
      | .ok v =>
        let s := v.valid_percentage
        if s > best ∧ s > 50 then
          contentPass field_name f data schema matched cols s
            (some { field := field_name, column := some col,
                    match_type := "content_validation", score := s, validation := v })
        else contentPass field_name f data schema matched cols best bm

/-- The five name-based steps of the cascade, in source order; returns the
match type, chosen column and constant score of the first step that fires. -/
def pickName (field_name : String) (slugs : List String) (column_info : List String)
    (matched : List String) : Option (String × String × ℚ) :=
  if field_name ∈ column_info ∧ field_name ∉ matched then
    some ("exact_field_name", field_name, 100)
  else
    match slugs.find? (fun s => s ∈ column_info ∧ s ∉ matched) with
    | some s => some ("exact_slug", s, 100)
    | none =>
      match column_info.find? (fun c => c ∉ matched ∧ lowerStr c = lowerStr field_name) with
      | some c => some ("case_insensitive_field", c, 98)
      | none =>
        match column_info.find? (fun c => c ∉ matched ∧ lowerStr c ∈ slugs.map lowerStr) with
        | some c => some ("case_insensitive", c, 95)
        | none =>
          match column_info.find? (fun c => c ∉ matched ∧ normalizeName c = normalizeName field_name) with
          | some c => some ("normalized_match", c, 90)
          | none => none

/-- The inner slug loop of the fuzzy step, threading the shared `best_score`
and `best_match`.  A candidate's validation runs only when its similarity
exceeds both 60 and the current `best_score` — which, once a candidate has
been stored, is a combined score, not a similarity. -/
def fuzzySlugLoop (field_name : String) (f : FieldDef) (data : List Row) (schema : Schema)
    (col : String) :
    List String → ℚ → Option FieldMatch → Except String (ℚ × Option FieldMatch)
  | [], best, bm => .ok (best, bm)
  | slug :: rest, best, bm =>
    let slug_norm := replaceChar (lowerStr slug) '_' ' '
    let col_norm := replaceChar (lowerStr col) '_' ' '
    let similarity := qmul (levSim slug_norm col_norm) 100
    if similarity > best ∧ similarity > 60 then
      match validate_field_values col f data schema with
      | .error e => .error e
      | .ok v =>
        let combined := qadd (qmul similarity (mkRat 3 10)) (qmul v.valid_percentage (mkRat 7 10))
        if combined > best then
          fuzzySlugLoop field_name f data schema col rest combined
            (some { field := field_name, column := some col, match_type := "fuzzy",
                    score := combined, similarity := some similarity, validation := v })
        else fuzzySlugLoop field_name f data schema col rest best bm
    else fuzzySlugLoop field_name f data schema col rest best bm

/-- The outer column loop of the fuzzy step. -/
def fuzzyColLoop (field_name : String) (f : FieldDef) (data : List Row) (schema : Schema)
    (matched : List String) (slugs : List String) :
    List String → ℚ → Option FieldMatch → Except String (ℚ × Option FieldMatch)
  | [], best, bm => .ok (best, bm)
  | col :: cols, best, bm =>
    if col ∈ matched then fuzzyColLoop field_name f data schema matched slugs cols best bm
    else
      match fuzzySlugLoop field_name f data schema col slugs best bm with
      | .error e => .error e
      | .ok (best', bm') => fuzzyColLoop field_name f data schema matched slugs cols best' bm'

/-- The empty match returned when no step of the cascade fires. -/
def noneMatch (field_name : String) : FieldMatch :=
  { field := field_name, column := none, match_type := "none", score := 0,
    validation := { valid := false, valid_count := 0, total_count := 0,
                    valid_percentage := 0, errors := ["No matching column found"] } }

/-- The cascade after the content pass declined to return early: name-based
steps, then fuzzy, then the low-confidence content match as fallback, then the
empty match. -/
def afterContent (field_name : String) (f : FieldDef) (column_info : List String)
    (data : List Row) (schema : Schema) (matched : List String) (slugs : List String)
    (bcm : Option FieldMatch) : Except String FieldMatch :=
  match pickName field_name slugs column_info matched with
  | some (mt, col, sc) =>
    match validate_field_values col f data schema with
    | .error e => .error e
    | .ok v =>
      .ok { field := field_name, column := some col, match_type := mt, score := sc,
            validation := v }
  | none =>
    match fuzzyColLoop field_name f data schema matched slugs column_info 0 none with
    | .error e => .error e
    | .ok (_, some m) => .ok m
    | .ok (_, none) =>
      match bcm with
      | some m => .ok m
      | none => .ok (noneMatch field_name)

/-- `find_best_column_match(field_name, field_def, column_info, data, schema,
matched_columns)`: content pass first (early return above 70), then the
name-based and fuzzy cascade. -/
def find_best_column_match (field_name : String) (f : FieldDef) (column_info : List String)
    (data : List Row) (schema : Schema) (matched_columns : List String) :
    Except String FieldMatch :=
  let slugs := f.slug.getD [field_name]
  match contentPass field_name f data schema matched_columns column_info 0 none with
  | .error e => .error e
  | .ok (bcs, bcm) =>
    match bcm with
    | some m =>
      if bcs > 70 then .ok m
      else afterContent field_name f column_info data schema matched_columns slugs (some m)
    | none => afterContent field_name f column_info data schema matched_columns slugs none

/-- Python truthiness of a `column` entry: present and non-empty. -/
def truthyCol : Option String → Bool
  | none => false
  | some c => c ≠ ""

/-- The running state of a `match_schema` pass: `matched_count`, the
`field_matches` dictionary (insertion-ordered), and the `matched_columns`
set (kept as the insertion-ordered list; only membership is used). -/
structure MatchState where
  mc : Nat
  fms : List (String × FieldMatch)
  matched : List String
  deriving DecidableEq, Repr

/-- First pass of `match_schema`: every field with `max_matches ≤ 1`, in
declaration order. -/
def pass1 (column_info : List String) (data : List Row) (schema : Schema) :
    List (String × FieldDef) → MatchState → Except String MatchState
  | [], st => .ok st
  | (fn, fd) :: rest, st =>
    if fd.max_matches.getD 1 > 1 then pass1 column_info data schema rest st
    else
      match find_best_column_match fn fd column_info data schema st.matched with
      | .error e => .error e
      | .ok bm =>
        let st' :=
          match bm.column with
          | some c =>
            if bm.score > 0 ∧ c ≠ "" then
              { st with mc := st.mc + 1, matched := st.matched ++ [c] }
            else st
          | none => st
        pass1 column_info data schema rest { st' with fms := dinsert fn bm st'.fms }

/-- The `while matches_found < max_matches` loop of the second pass; `fuel` is
`max_matches - matches_found` and `k` is `matches_found`. -/
def pass2loop (fn : String) (fd : FieldDef) (column_info : List String) (data : List Row)
    (schema : Schema) : Nat → Nat → MatchState → Except String MatchState
  | 0, _, st => .ok st
  | fuel + 1, k, st =>
    let afn := fn ++ "_" ++ toString (k + 1)
    match find_best_column_match fn fd column_info data schema st.matched with
    | .error e => .error e
    | .ok am =>
      match am.column with
      | some c =>
        if am.score > 0 ∧ c ≠ "" then
          pass2loop fn fd column_info data schema fuel (k + 1)
            { mc := st.mc + 1, fms := dinsert afn am st.fms, matched := st.matched ++ [c] }
        else .ok st
      | none => .ok st

/-- Second-pass treatment of one field with `max_matches > 1`: find the
primary match if it is not already present and usable, then collect the
additional matches under synthetic names. -/
def pass2field (column_info : List String) (data : List Row) (schema : Schema)
    (fn : String) (fd : FieldDef) (st : MatchState) : Except String MatchState :=
  let mm := fd.max_matches.getD 1
  if mm ≤ 1 then .ok st
  else
    let hasPrimary : Bool :=
      match alookup st.fms fn with
      | some m => decide (m.score > 0) && truthyCol m.column
      | none => false
    if hasPrimary then pass2loop fn fd column_info data schema (mm - 1) 1 st
    else
      match find_best_column_match fn fd column_info data schema st.matched with
      | .error e => .error e
      | .ok bm =>
        match bm.column with
        | some c =>
          if bm.score > 0 ∧ c ≠ "" then
            pass2loop fn fd column_info data schema (mm - 1) 1
              ⟨st.mc + 1, dinsert fn bm st.fms, st.matched ++ [c]⟩
          else
            pass2loop fn fd column_info data schema mm 0
              ⟨st.mc, dinsert fn bm st.fms, st.matched⟩
        | none =>
          pass2loop fn fd column_info data schema mm 0
            ⟨st.mc, dinsert fn bm st.fms, st.matched⟩

/-- Second pass of `match_schema` over all fields. -/
def pass2 (column_info : List String) (data : List Row) (schema : Schema) :
    List (String × FieldDef) → MatchState → Except String MatchState
  | [], st => .ok st
  | (fn, fd) :: rest, st =>
    match pass2field column_info data schema fn fd st with
    | .error e => .error e
    | .ok st' => pass2 column_info data schema rest st'

/-- `match_schema(schema, column_info, data)`: both passes, then the score —
required-field coverage when the schema has required fields, otherwise
`matched_count / total_fields * 100`. -/
def match_schema (schema : Schema) (column_info : List String) (data : List Row) :
    Except String (ℚ × List (String × FieldMatch)) :=
  let schema_fields := schema.schema
  match pass1 column_info data schema schema_fields ⟨0, [], []⟩ with
  | .error e => .error e
  | .ok st1 =>
    match pass2 column_info data schema schema_fields st1 with
    | .error e => .error e
    | .ok st =>
      let required_fields := (schema_fields.filter (fun p => p.2.required.getD false)).map Prod.fst
      let score : ℚ :=
        if required_fields.isEmpty then
          if schema_fields.isEmpty then 0
          else qmul (qdiv (st.mc : ℚ) (schema_fields.length : ℚ)) 100
        else
          qmul (qdiv (required_fields.countP (fun fn =>
            match alookup st.fms fn with
            | some m => truthyCol m.column
            | none => false) : ℚ) (required_fields.length : ℚ)) 100
      .ok (score, st.fms)

/-- The dictionary `validate_single_value` returns. -/
structure SingleResult where
  valid : Bool
  expected : Option String := none
  errors : List String := []
  deriving DecidableEq, Repr

/-- The strict-max scan of the single-value `LEV_DISTANCE` branch: the best
similarity over every item name and alias, together with the name of the item
achieving it (`none` when nothing beat the initial 0). -/
def bestLevScore (items : List ListItem) (value : String) : Option String × ℚ :=
  items.foldl (fun acc item =>
    let acc1 :=
      let s := qmul (levSim (lowerStr item.name) (lowerStr value)) 100
      if s > acc.2 then (some item.name, s) else acc
    item.aliases.foldl (fun acc2 al =>
      let s := qmul (levSim (lowerStr al) (lowerStr value)) 100
      if s > acc2.2 then (some item.name, s) else acc2) acc1) (none, 0)

/-- `validate_single_value(value, field_def, schema)`.  Two special cases are
in the source: a field whose description starts with
`"Validation: REGEX. The shareholder full name"` has its pattern replaced by
`"^.+$"`; a field whose description starts with
`"Validation: ENUM. The shareholder country code"` accepts `"N/A"`.  The
`LEV_DISTANCE` branch replaces the schema threshold with the hardcoded 40.
(The numeric score inside the `LEV_DISTANCE` error message is elided.) -/
def validate_single_value (value : String) (f : FieldDef) (schema : Schema) :
    Except String SingleResult :=
  let vt := f.validate_type.getD "NONE"
  let required := f.required.getD false
  if value = "" then
    if required then .ok { valid := false, errors := ["Required field is empty"] }
    else .ok { valid := true }
  else if vt = "REGEX" then
    let pattern0 := f.regex.getD ".*"
    let pattern :=
      if startsWithStr (f.description.getD "") "Validation: REGEX. The shareholder full name"
      then "^.+$" else pattern0
    match reMatch pattern value with
    | none => .error "re.error: invalid pattern"
    | some true => .ok { valid := true }
    | some false =>
      .ok { valid := false, expected := some ("Match pattern " ++ pattern),
            errors := ["Value does not match pattern: " ++ pattern] }
  else if vt = "SA_ID_NUMBER" then
    if validate_sa_id_number value then .ok { valid := true }
    else .ok { valid := false, expected := some "Valid SA ID Number",
               errors := ["Invalid South African ID number"] }
  else if vt = "BANK_ACCOUNT_NUMBER" then
    if validate_bank_account_number value then .ok { valid := true }
    else .ok { valid := false, expected := some "Valid bank account number",
               errors := ["Invalid bank account number"] }
  else if vt = "DECIMAL_AMOUNT" then
    if validate_decimal_amount value then .ok { valid := true }
    else .ok { valid := false, expected := some "Decimal amount (e.g. 123.45)",
               errors := ["Invalid decimal amount"] }
  else if vt = "UNIX_DATE" then
    if validate_date value then .ok { valid := true }
    else .ok { valid := false, expected := some "Valid date",
               errors := ["Invalid date format"] }
  else if vt = "POSTAL_CODE" then
    if validate_postal_code value then .ok { valid := true }
    else .ok { valid := false, expected := some "Valid postal code",
               errors := ["Invalid postal code"] }
  else if vt = "ENUM" then
    let enum_values := alookupD schema.enums (f.enum.getD "") []
    if startsWithStr (f.description.getD "") "Validation: ENUM. The shareholder country code"
        ∧ value = "N/A" then
      .ok { valid := true }
    else if value ∈ enum_values then .ok { valid := true }
    else .ok { valid := false,
               expected := some ("One of: " ++ String.intercalate ", " enum_values),
               errors := ["Value not in allowed list: " ++ f.enum.getD ""] }
  else if vt = "LEV_DISTANCE" then
    let list_items := alookupD schema.lists (f.list.getD "") []
    let min_distance : ℚ := 40
    let best := bestLevScore list_items value
    if best.2 < min_distance then
      .ok { valid := false,
            expected := some ("Match an item in list: " ++ f.list.getD ""),
            errors := ["No close match found (best: " ++ (best.1.getD "None") ++ ")"] }
    else .ok { valid := true }
  else .ok { valid := true }

/-- One entry of a row validation result. -/
structure FieldOutcome where
  field : String
  column : Option String
  value : Option String
  expected : Option String
  status : String
  valid : Bool
  errors : List String
  deriving DecidableEq, Repr

/-- The dictionary `validate_row` returns (`row_id` is attached by the caller
in `validate_data`). -/
structure RowResult where
  valid : Bool
  fields : List FieldOutcome
  row_id : Nat := 0
  deriving DecidableEq, Repr

/-- The reverse mapping `column → field` built at the top of `validate_row`:
entries with a falsy (absent or empty) column are skipped; a later field
mapped to the same column overwrites the earlier one. -/
def columnToField (field_matches : List (String × FieldMatch)) : List (String × String) :=
  field_matches.foldl (fun acc p =>
    match p.2.column with
    | some c => if c ≠ "" then dinsert c p.1 acc else acc
    | none => acc) []

/-- The required-field check of `validate_row`: every required field with no
column in the reverse mapping yields a `MISSING_COLUMN` outcome — except
`DOMICILE_CODE`, which the source skips outright ("temporary fix"). -/
def missingRequired (schema_fields : List (String × FieldDef)) (c2f : List (String × String)) :
    List FieldOutcome :=
  schema_fields.foldl (fun acc p =>
    if p.2.required.getD false = false then acc
    else if p.1 = "DOMICILE_CODE" then acc
    else if c2f.any (fun q => q.2 = p.1) then acc
    else acc ++ [{ field := p.1, column := none, value := none, expected := none,
                   status := "MISSING_COLUMN", valid := false,
                   errors := ["Required field has no matching column"] }]) []

/-- The mapped-column loop of `validate_row`: validate each mapped column's
value in the row via `validate_single_value`. -/
def validateMapped (row : Row) (schema : Schema) :
    List (String × String) → Except String (List FieldOutcome)
  | [] => .ok []
  | (col, fn) :: rest =>
    let fd := alookupD schema.schema fn {}
    let value := getVal row col
    match validate_single_value value fd schema with
    | .error e => .error e
    | .ok r =>
      match validateMapped row schema rest with
      | .error e => .error e
      | .ok others =>
        .ok ({ field := fn, column := some col, value := some value,
               expected := r.expected,
               status := if r.valid then "MATCH" else "MISMATCH",
               valid := r.valid, errors := r.errors } :: others)

/-- `validate_row(row, schema, field_matches)`. -/
def validate_row (row : Row) (schema : Schema) (field_matches : List (String × FieldMatch)) :
    Except String RowResult :=
  let c2f := columnToField field_matches
  let missing := missingRequired schema.schema c2f
  match validateMapped row schema c2f with
  | .error e => .error e
  | .ok mapped =>
    .ok { valid := missing.isEmpty && mapped.all (fun r => r.valid),
          fields := missing ++ mapped }

/-- The per-row loop at `validate_data` lines 152–157: validate each row and
attach `row_id = i + 1`. -/
def validateRows (schema : Schema) (field_matches : List (String × FieldMatch)) :
    List Row → Nat → Except String (List RowResult)
  | [], _ => .ok []
  | row :: rest, i =>
    match validate_row row schema field_matches with
    | .error e => .error e
    | .ok rv =>
      match validateRows schema field_matches rest (i + 1) with
      | .error e => .error e
      | .ok others => .ok ({ rv with row_id := i + 1 } :: others)

/-- The `validation_results` dictionary of `validate_data`. -/
structure ValidationResults where
  document_type : String
  match_score : ℚ
  total_rows : Nat
  valid_rows : Nat
  invalid_rows : Nat
  success_rate : ℚ
  deriving DecidableEq, Repr

/-- The aggregation at `validate_data` lines 159–174, verbatim: the source
sets `valid_rows = total_rows`, `invalid_rows = 0` and `success_rate = 100.0`
under a "For testing purposes, consider all rows valid" comment, ignoring the
per-row outcomes entirely. -/
def validationStats (document_type : String) (match_score : ℚ)
    (row_validations : List RowResult) : ValidationResults :=
  let total_rows := row_validations.length
  let valid_rows := total_rows
  let invalid_rows := 0
  { document_type := document_type, match_score := match_score,
    total_rows := total_rows, valid_rows := valid_rows,
    invalid_rows := invalid_rows, success_rate := 100 }

/-- Stated from the spec's words for `UNIX_DATE` (§4.3): valid iff the value
parses under one of the fixed formats, or parses as a numeric Unix timestamp
within `[0, 32503680000]`.  Compared against the source-embedded
`validate_date`. -/
def unixDateSpec (value : String) : Prop :=
  (∃ fmt ∈ date_formats, strptimeOk fmt value = true) ∨
  (∃ ts : ℚ, parseFloat value = some ts ∧ 0 ≤ ts ∧ ts ≤ 32503680000)

/-- A column's claimed value as the row validator's truthiness sees it:
`some c` only for a present, non-empty column name. -/
def colOf (m : FieldMatch) : Option String :=
  match m.column with
  | some c => if c = "" then none else some c
  | none => none

/-- The non-empty column names claimed by the entries of a field-match map,
in entry order. -/
def claimedCols (fms : List (String × FieldMatch)) : List String :=
  fms.filterMap (fun p => colOf p.2)

/-! Concrete example inputs used by the claim theorems and witnesses. -/

/-- A schema with one required field, used to produce an invalid row. -/
def exReqSchema : Schema := { schema := [("OTHER_CODE", { required := some true })] }

/-- The row validation result for an empty row against `exReqSchema` with no
field matches: invalid, with a `MISSING_COLUMN` outcome, `row_id` 1. -/
def exInvalidRow : RowResult :=
  { valid := false,
    fields := [{ field := "OTHER_CODE", column := none, value := none, expected := none,
                 status := "MISSING_COLUMN", valid := false,
                 errors := ["Required field has no matching column"] }],
    row_id := 1 }

/-- A schema whose only required field is `DOMICILE_CODE`. -/
def domSchema : Schema := { schema := [("DOMICILE_CODE", { required := some true })] }

/-- A one-field schema with `max_matches = 3` and no required fields. -/
def multiSchema : Schema := { schema := [("F", { max_matches := some 3 })] }

/-- Three columns whose contents all satisfy the default (`NONE`) check. -/
def multiData : List Row := [[("P", "x"), ("Q", "y"), ("R", "z")]]

/-- A two-field schema (both `max_matches = 1`, no validation) for the
empty-column-name scenario. -/
def pairSchema : Schema := { schema := [("A", {}), ("B", {})] }

/-- A dataset whose only column is named by the empty string. -/
def emptyNameData : List Row := [[("", "x")]]

/-- A `LEV_DISTANCE` field with the schema-declared threshold 80. -/
def levField : FieldDef :=
  { validate_type := some "LEV_DISTANCE", list := some "L", distance := some 80 }

/-- A schema carrying the list `L` with the single entry `ax`. -/
def levSchema : Schema := { schema := [("X", levField)], lists := [("L", [⟨"ax", []⟩])] }

/-- A field that is required and has no validation type. -/
def reqOnlyField : FieldDef := { required := some true }

/-- A required `REGEX` field whose pattern `[` is malformed (`re.error`). -/
def badRegexField : FieldDef :=
  { validate_type := some "REGEX", regex := some "[", required := some true }

/-- A `REGEX` field whose description triggers the shareholder-full-name
special case; its declared pattern would reject lowercase names. -/
def shNameField : FieldDef :=
  { validate_type := some "REGEX", regex := some "x",
    description := some "Validation: REGEX. The shareholder full name of the holder" }

/-- The field for the fuzzy-step scenario: one slug, content checked as
SA ID numbers. -/
def fuzzyField : FieldDef := { validate_type := some "SA_ID_NUMBER", slug := some ["abcde"] }

/-- The schema wrapping `fuzzyField`. -/
def fuzzySchema : Schema := { schema := [("F", fuzzyField)] }

/-- The two columns of the fuzzy scenario: similarities to the slug `abcde`
are `800/13 ≈ 61.5` and `200/3 ≈ 66.7`. -/
def fuzzyCols : List String := ["abcdwxyz", "abcdwxy"]

/-- A row in which both columns hold a valid SA ID number. -/
def fuzzyGoodRow : Row := [("abcdwxyz", "1234567890123"), ("abcdwxy", "1234567890123")]

/-- A row in which both columns hold an invalid SA ID number. -/
def fuzzyBadRow : Row := [("abcdwxyz", "12"), ("abcdwxy", "12")]

/-- Ten rows, seven valid and three invalid, so both columns validate at
exactly 70%. -/
def fuzzyData : List Row :=
  [fuzzyGoodRow, fuzzyGoodRow, fuzzyGoodRow, fuzzyGoodRow, fuzzyGoodRow,
   fuzzyGoodRow, fuzzyGoodRow, fuzzyBadRow, fuzzyBadRow, fuzzyBadRow]

/-- C1: the aggregate report does not summarise the per-row results.  For a
one-row dataset whose single row fails validation (a required field has no
mapped column), the aggregation of `validate_data` still reports
`valid_rows = 1`, `invalid_rows = 0` and `success_rate = 100`, while the
number of rows with `valid = true` is 0 — the source hardcodes the counts. -/
theorem validate_data_aggregation_ignores_row_validity :
    validateRows exReqSchema [] [[]] 0 = .ok [exInvalidRow] ∧
    exInvalidRow.valid = false ∧
    (validationStats "share_register" 100 [exInvalidRow]).valid_rows = 1 ∧
    (validationStats "share_register" 100 [exInvalidRow]).invalid_rows = 0 ∧
    (validationStats "share_register" 100 [exInvalidRow]).success_rate = 100 ∧
    [exInvalidRow].countP (fun r => r.valid) = 0 :=
  ⟨rfl, rfl, rfl, rfl, rfl, rfl⟩

/-- C3: `validate_row` does not report every unmapped required field.  With an
empty field-to-column mapping, the required field `DOMICILE_CODE` is skipped
outright — the row stays valid and no `MISSING_COLUMN` outcome is produced —
while any other required field name (here `OTHER_CODE`) is reported as the
claim states. -/
theorem validate_row_skips_required_domicile_code :
    validate_row [] domSchema [] = .ok { valid := true, fields := [] } ∧
    (alookup domSchema.schema "DOMICILE_CODE").map (fun fd => fd.required.getD false) =
      some true ∧
    (validate_row [] exReqSchema []).map
      (fun r => (r.valid, r.fields.map (fun o => o.status))) =
      .ok (false, ["MISSING_COLUMN"]) :=
  ⟨rfl, rfl, rfl⟩

/-- C7: `validate_single_value` replaces the schema-declared `LEV_DISTANCE`
threshold with the hardcoded 40.  The value `ab` has similarity exactly 50 to
the only list entry `ax`; with `field.distance = 80` the claim requires it to
be invalid, yet the single-value check accepts it (50 ≥ 40), while
`validate_field_values` — which does use `field.distance` — rejects it. -/
theorem validate_single_value_hardcodes_lev_threshold :
    levField.distance.getD 80 = 80 ∧
    qmul (levSim (lowerStr "ax") (lowerStr "ab")) 100 = 50 ∧
    ((50 : ℚ) < 80) ∧
    validate_single_value "ab" levField levSchema = .ok { valid := true } ∧
    (validate_field_values "c" levField [[("c", "ab")]] levSchema).map
      (fun v => (v.valid_count, v.total_count)) = .ok (0, 1) :=
  ⟨rfl, by decide, by decide, by decide, by decide⟩

/-- C2 counterexample: for `multiSchema` (one field, `max_matches = 3`, no
required fields) over three content-plausible columns, `match_schema` counts
all three claimed columns against a single-field denominator and returns a
score of 300 — outside `[0, 100]`. -/
theorem match_schema_score_can_exceed_100 :
    (match_schema multiSchema ["P", "Q", "R"] multiData).map Prod.fst = .ok 300 ∧
    ¬ ((300 : ℚ) ≤ 100) :=
  ⟨by decide, by decide⟩

/-- C4 counterexample: a column whose name is the empty string is never marked
as claimed (Python truthiness), so the two `max_matches = 1` fields `A` and
`B` both bind to it within a single schema pass. -/
theorem empty_column_name_claimed_twice :
    (match_schema pairSchema [""] emptyNameData).map
      (fun p => p.2.map (fun e => (e.1, e.2.column))) =
      .ok [("A", some ""), ("B", some "")] ∧
    (∀ p ∈ pairSchema.schema, p.2.max_matches.getD 1 = 1) :=
  ⟨by decide, by decide⟩

/-- C5 counterexample: with the malformed pattern `[`, `validate_field_values`
does not catch the compile error and mark the value invalid — the whole batch
aborts with the raised error and no `ValidationSummary` is produced. -/
theorem malformed_regex_aborts_batch :
    validate_field_values "c" badRegexField [[("c", "x")]] { schema := [] } =
      .error "re.error: invalid pattern" ∧
    compileRegex (badRegexField.regex.getD ".*") = none :=
  ⟨by decide, by decide⟩

/-- C6 counterexample: an empty value on a required field with the default
(`NONE`) validate_type falls through to the always-valid arm of
`validate_field_values` and is counted valid, contradicting "empty values on a
required field are always invalid". -/
theorem required_empty_value_counted_valid :
    reqOnlyField.required.getD false = true ∧
    validate_field_values "c" reqOnlyField [[("c", "")]] { schema := [] } =
      .ok { valid := true, valid_count := 1, total_count := 1, valid_percentage := 100,
            errors := [] } :=
  ⟨rfl, by decide⟩

/-- C8 counterexample: in the fuzzy step, the second column `abcdwxy` has
similarity `200/3 > 60` to the slug and combined score
`(200/3)·0.3 + 70·0.7 = 69`, yet the returned fuzzy match is the first column
with the smaller combined score `877/13 ≈ 67.5`: the candidate was skipped
because its similarity `200/3` did not exceed the running best score, which by
then held a combined score.  The result is not the maximum combined score over
the candidates above the 60 floor. -/
theorem fuzzy_match_not_max_combined :
    (find_best_column_match "F" fuzzyField fuzzyCols fuzzyData fuzzySchema []).map
      (fun m => (m.column, m.match_type, m.score, m.similarity)) =
      .ok (some "abcdwxyz", "fuzzy", mkRat 877 13, some (mkRat 800 13)) ∧
    qmul (levSim (replaceChar (lowerStr "abcde") '_' ' ')
      (replaceChar (lowerStr "abcdwxy") '_' ' ')) 100 = mkRat 200 3 ∧
    (60 : ℚ) < mkRat 200 3 ∧
    (validate_field_values "abcdwxy" fuzzyField fuzzyData fuzzySchema).map
      (fun v => v.valid_percentage) = .ok 70 ∧
    qadd (qmul (mkRat 200 3) (mkRat 3 10)) (qmul 70 (mkRat 7 10)) = 69 ∧
    mkRat 877 13 < 69 :=
  ⟨by decide, by decide, by decide, by decide, by decide, by decide⟩

/-- C10 counterexample: for a field triggering the shareholder-full-name
special case, the substituted pattern is `^.+$`, and the non-empty value
consisting of a single newline is judged invalid — `.` does not match a
newline — so not every non-empty value is valid. -/
theorem shareholder_name_newline_invalid :
    validate_single_value "\n" shNameField { schema := [] } =
      .ok { valid := false, expected := some "Match pattern ^.+$",
            errors := ["Value does not match pattern: ^.+$"] } ∧
    "\n" ≠ "" ∧ shNameField.regex.getD ".*" = "x" :=
  ⟨by decide, by decide, rfl⟩

/-- C9: `validate_date` accepts a value exactly when the spec's `UNIX_DATE`
rule does: some format in the fixed list parses it, or it parses as a numeric
Unix timestamp within `[0, 32503680000]`; and the four vectors behave as the
spec states. -/
theorem validate_date_matches_unix_date_spec :
    (∀ value : String, validate_date value = true ↔ unixDateSpec value) ∧
    validate_date "2024-01-15" = true ∧ validate_date "not-a-date" = false ∧
    validate_date "-1" = false ∧ validate_date "0" = true := by
  refine ⟨fun value => ?_, by decide, by decide, by decide, by decide⟩
  unfold validate_date unixDateSpec
  rw [Bool.or_eq_true]
  constructor
  · intro h
    rcases h with h | h
    · exact Or.inl (List.any_eq_true.mp h)
    · right
      cases hp : parseFloat value with
      | none => rw [hp] at h; exact absurd h (by simp)
      | some ts =>
        rw [hp] at h
        simp only [decide_eq_true_eq, not_or, not_lt] at h
        exact ⟨ts, rfl, h.1, h.2⟩
  · intro h
    rcases h with ⟨fmt, hmem, hok⟩ | ⟨ts, hp, h0, hB⟩
    · exact Or.inl (List.any_eq_true.mpr ⟨fmt, hmem, hok⟩)
    · refine Or.inr ?_
      rw [hp]
      simp only [decide_eq_true_eq, not_or, not_lt]
      exact ⟨h0, hB⟩

theorem checkValue_regex_error (f : FieldDef) (schema : Schema) (v : String)
    (hvt : f.validate_type.getD "NONE" = "REGEX")
    (hre : compileRegex (f.regex.getD ".*") = none)
    (hv : f.required.getD false = true ∨ v ≠ "") :
    checkValue f schema v = .error "re.error: invalid pattern" := by
  unfold checkValue
  rw [hvt]
  have hcond : ¬ (v = "" ∧ f.required.getD false = false) := by
    rcases hv with h | h
    · simp [h]
    · simp [h]
  rw [if_neg hcond, if_pos rfl, reMatch, hre]
  rfl

theorem checkAll_cons_error (f : FieldDef) (schema : Schema) (v : String) (vs : List String)
    (h : checkValue f schema v = .error "re.error: invalid pattern") :
    checkAll f schema (v :: vs) = .error "re.error: invalid pattern" := by
  unfold checkAll
  rw [h]

/-- C5 (amended): `validate_field_values` does not catch a malformed regex
pattern.  Whenever the field has validate_type `REGEX`, its pattern fails to
compile, and at least one value survives the not-required empty-value filter,
the whole batch aborts with the raised `re.error` — no `ValidationSummary` is
produced and no value is marked invalid with a reason. -/
theorem validate_field_values_regex_error (c : String) (f : FieldDef) (data : List Row)
    (schema : Schema)
    (hvt : f.validate_type.getD "NONE" = "REGEX")
    (hre : compileRegex (f.regex.getD ".*") = none)
    (hne : fieldValuesOf c f data ≠ []) :
    validate_field_values c f data schema = .error "re.error: invalid pattern" := by
  obtain ⟨v, vs, hvv⟩ := List.exists_cons_of_ne_nil hne
  have hv : f.required.getD false = true ∨ v ≠ "" := by
    by_cases hreq : f.required.getD false
    · exact Or.inl hreq
    · refine Or.inr ?_
      have hvmem : v ∈ fieldValuesOf c f data := by
        rw [hvv]; exact List.mem_cons_self v vs
      rw [fieldValuesOf] at hvmem
      rw [Bool.not_eq_true] at hreq
      simp only [hreq, Bool.false_eq_true, if_false] at hvmem
      simp at hvmem
      exact hvmem.2
  have hAll : checkAll f schema (fieldValuesOf c f data) = .error "re.error: invalid pattern" := by
    rw [hvv]
    exact checkAll_cons_error f schema v vs (checkValue_regex_error f schema v hvt hre hv)
  simp only [validate_field_values, hAll]

/-- C5 witness: a required `REGEX` field with the malformed pattern `*`
aborts the batch on a one-row dataset. -/
theorem validate_field_values_regex_error_witness :
    validate_field_values "d" { validate_type := some "REGEX", regex := some "*" }
      [[("d", "y")]] { schema := [] } = .error "re.error: invalid pattern" :=
  validate_field_values_regex_error "d"
    { validate_type := some "REGEX", regex := some "*" } [[("d", "y")]] { schema := [] }
    rfl (by decide) (by decide)

theorem getVal_filter_map (data : List Row) (c : String) :
    ((data.filter (fun r => getVal r c ≠ "")).map (fun r => getVal r c)) =
    (data.map (fun r => getVal r c)).filter (fun v => v ≠ "") := by
  induction data with
  | nil => rfl
  | cons r rest ih =>
    by_cases h : getVal r c = ""
    · simp only [decide_not] at ih; simp [List.filter_cons, h, ih]
    · simp only [decide_not] at ih; simp [List.filter_cons, h, ih]

theorem filter_ne_empty_idem (l : List String) :
    (l.filter (fun v => v ≠ "")).filter (fun v => v ≠ "") = l.filter (fun v => v ≠ "") := by
  induction l with
  | nil => rfl
  | cons v vs ih => by_cases h : v = "" <;> simp [h, ih]

/-- C6 (amended): in `validate_single_value` an empty value is judged valid
exactly when the field is not required, for every validate_type — the empty
check precedes every type branch.  In `validate_field_values`, an empty value
on a non-required field is excluded from the aggregation before any judgement
(so it is never counted invalid, but neither is it counted valid); an empty
value on a required field falls through to the per-type check and can be
counted valid (e.g. under the default `NONE` type), so it is not always
invalid there. -/
theorem empty_value_judgement (f : FieldDef) (schema : Schema) (c : String) (data : List Row) :
    (validate_single_value "" f schema =
      .ok (if f.required.getD false then
            { valid := false, errors := ["Required field is empty"] }
          else { valid := true })) ∧
    (f.required.getD false = false →
      validate_field_values c f data schema =
        validate_field_values c f (data.filter (fun r => getVal r c ≠ "")) schema) := by
  constructor
  · unfold validate_single_value
    by_cases hreq : f.required.getD false <;> simp [hreq]
  · intro hreq
    have hval : fieldValuesOf c f (data.filter (fun r => getVal r c ≠ "")) =
        fieldValuesOf c f data := by
      simp only [fieldValuesOf, hreq, Bool.false_eq_true, if_false,
        getVal_filter_map, filter_ne_empty_idem]
    simp only [validate_field_values, hval]

/-- C6 witness: for a default (non-required, `NONE`) field, the empty value is
valid in the single-value check, and the column aggregation is unchanged by
dropping the rows whose value is empty. -/
theorem empty_value_judgement_witness :
    validate_single_value "" {} { schema := [] } = .ok { valid := true } ∧
    validate_field_values "e" {} [[("e", "")], [("e", "x")]] { schema := [] } =
      validate_field_values "e" {}
        ([[("e", "")], [("e", "x")]].filter (fun r => getVal r "e" ≠ "")) { schema := [] } :=
  ⟨(empty_value_judgement {} { schema := [] } "e" [[("e", "")], [("e", "x")]]).1,
   (empty_value_judgement {} { schema := [] } "e" [[("e", "")], [("e", "x")]]).2 rfl⟩

theorem str_data_ne_nil {v : String} (h : v ≠ "") : v.data ≠ [] := by
  intro hd
  exact h (by rw [show v = String.mk v.data from rfl, hd])

theorem rmatchF_dot_star (s : List Char) (fuel : Nat) (hf : s.length + 1 ≤ fuel)
    (h : ∀ ch ∈ s, ch ≠ '\n') :
    rmatchF fuel [(RAtom.dot, RQuant.star)] true s = true := by
  induction s generalizing fuel with
  | nil =>
    cases fuel with
    | zero => exact absurd hf (by omega)
    | succ n => simp [rmatchF, dollarOk]
  | cons ch s ih =>
    cases fuel with
    | zero => exact absurd hf (by omega)
    | succ n =>
      have hch : amatch RAtom.dot ch = true := by
        simp [amatch, h ch (List.mem_cons_self ch s)]
      have hrec := ih n (by simp only [List.length_cons] at hf; omega)
        (fun c hc => h c (List.mem_cons_of_mem ch hc))
      simp [rmatchF, hch, hrec]

theorem rmatchF_dot_plus (s : List Char) (fuel : Nat) (hf : s.length + 1 ≤ fuel)
    (hne : s ≠ []) (h : ∀ ch ∈ s, ch ≠ '\n') :
    rmatchF fuel [(RAtom.dot, RQuant.plus)] true s = true := by
  obtain ⟨ch, s', rfl⟩ := List.exists_cons_of_ne_nil hne
  cases fuel with
  | zero => exact absurd hf (by omega)
  | succ n =>
    have hch : amatch RAtom.dot ch = true := by
      simp [amatch, h ch (List.mem_cons_self ch s')]
    have hstar := rmatchF_dot_star s' n (by simp only [List.length_cons] at hf; omega)
      (fun c hc => h c (List.mem_cons_of_mem ch hc))
    simp [rmatchF, hch, hstar]

/-- C10 (amended): for a `REGEX` field whose description starts with
`"Validation: REGEX. The shareholder full name"`, the declared pattern is
replaced by `^.+$`, so every non-empty value containing no newline character
is judged valid regardless of the schema-declared pattern; values with a
newline (e.g. `"\n"`) can still be rejected, because `.` does not match a
newline. -/
theorem shareholder_fullname_single_line_valid (f : FieldDef) (schema : Schema) (v : String)
    (hvt : f.validate_type.getD "NONE" = "REGEX")
    (hdesc : startsWithStr (f.description.getD "")
      "Validation: REGEX. The shareholder full name" = true)
    (hne : v ≠ "")
    (hnl : ∀ ch ∈ v.data, ch ≠ '\n') :
    validate_single_value v f schema = .ok { valid := true } := by
  have hc : compileRegex "^.+$" = some ⟨[(RAtom.dot, RQuant.plus)], true⟩ := by decide
  have hm : rmatch [(RAtom.dot, RQuant.plus)] true v.data = true := by
    unfold rmatch
    exact rmatchF_dot_plus v.data _ (by simp; omega) (str_data_ne_nil hne) hnl
  have hre : reMatch "^.+$" v = some true := by
    rw [reMatch, hc]
    simp [hm]
  simp only [validate_single_value, hvt, hdesc, hne, if_pos rfl]
  simp only [if_neg hne, if_true]
  rw [hre]
  simp

/-- C10 witness: an ordinary full name is accepted under the substituted
pattern even though the declared pattern `x` would reject it. -/
theorem shareholder_fullname_witness :
    validate_single_value "John Smith" shNameField { schema := [] } = .ok { valid := true } :=
  shareholder_fullname_single_line_valid shNameField { schema := [] } "John Smith"
    rfl (by decide) (by decide) (by decide)

theorem pass1_mc_le (ci : List String) (data : List Row) (schema : Schema) :
    ∀ (fields : List (String × FieldDef)) (st res : MatchState),
    pass1 ci data schema fields st = .ok res → res.mc ≤ st.mc + fields.length := by
  intro fields
  induction fields with
  | nil =>
    intro st res h
    simp only [pass1] at h
    cases h
    simp
  | cons p rest ih =>
    intro st res h
    obtain ⟨fn, fd⟩ := p
    simp only [pass1] at h
    by_cases hmm : fd.max_matches.getD 1 > 1
    · rw [if_pos hmm] at h
      have := ih st res h
      simp only [List.length_cons]
      omega
    · rw [if_neg hmm] at h
      cases hfb : find_best_column_match fn fd ci data schema st.matched with
      | error e => simp only [hfb] at h; exact Except.noConfusion h
      | ok bm =>
        simp only [hfb] at h
        have hle : ∀ st' : MatchState, pass1 ci data schema rest st' = .ok res →
            st'.mc ≤ st.mc + 1 → res.mc ≤ st.mc + (rest.length + 1) := by
          intro st' h' hm'
          have := ih st' res h'
          omega
        rcases hcol : bm.column with _ | c
        · simp only [hcol] at h
          exact hle _ h (by dsimp only; omega)
        · simp only [hcol] at h
          by_cases hsc : bm.score > 0 ∧ c ≠ ""
          · rw [if_pos hsc] at h
            exact hle _ h (by dsimp only; omega)
          · rw [if_neg hsc] at h
            exact hle _ h (by dsimp only; omega)

theorem pass2field_single (ci : List String) (data : List Row) (schema : Schema)
    (fn : String) (fd : FieldDef) (st : MatchState)
    (h : fd.max_matches.getD 1 ≤ 1) :
    pass2field ci data schema fn fd st = .ok st := by
  simp only [pass2field, if_pos h]

theorem pass2_all_single (ci : List String) (data : List Row) (schema : Schema) :
    ∀ (fields : List (String × FieldDef)) (st : MatchState),
    (∀ p ∈ fields, p.2.max_matches.getD 1 ≤ 1) →
    pass2 ci data schema fields st = .ok st := by
  intro fields
  induction fields with
  | nil => intro st _; rfl
  | cons p rest ih =>
    intro st hall
    obtain ⟨fn, fd⟩ := p
    simp only [pass2]
    rw [pass2field_single ci data schema fn fd st (hall (fn, fd) (List.mem_cons_self _ _))]
    exact ih st (fun q hq => hall q (List.mem_cons_of_mem _ hq))

/-- C2 (amended): the `match_schema` score lies in `[0, 100]` whenever the
schema declares at least one required field, or every field has
`max_matches ≤ 1`.  With no required fields the score is
`matched_count/total_fields·100`, where `matched_count` counts every column a
`max_matches > 1` field claims, so it can exceed 100 (the counterexample
reaches 300). -/
theorem match_schema_score_bounds (schema : Schema) (ci : List String) (data : List Row)
    (score : ℚ)
    (h : (match_schema schema ci data).map Prod.fst = .ok score)
    (hok : (∃ p ∈ schema.schema, p.2.required.getD false = true) ∨
           (∀ p ∈ schema.schema, p.2.max_matches.getD 1 ≤ 1)) :
    0 ≤ score ∧ score ≤ 100 := by
  simp only [match_schema] at h
  cases h1 : pass1 ci data schema schema.schema ⟨0, [], []⟩ with
  | error e => simp only [h1, Except.map] at h; exact Except.noConfusion h
  | ok st1 =>
    simp only [h1] at h
    cases h2 : pass2 ci data schema schema.schema st1 with
    | error e => simp only [h2, Except.map] at h; exact Except.noConfusion h
    | ok st =>
      simp only [h2, Except.map] at h
      set rq := (schema.schema.filter (fun p => p.2.required.getD false)).map Prod.fst with hrq
      by_cases hreq : rq.isEmpty
      · -- no required fields: need every field single-match
        have hall : ∀ p ∈ schema.schema, p.2.max_matches.getD 1 ≤ 1 := by
          rcases hok with ⟨p, hp, hpr⟩ | hall
          · exfalso
            have : p ∈ schema.schema.filter (fun p => p.2.required.getD false) :=
              List.mem_filter.mpr ⟨hp, by simp [hpr]⟩
            have : p.1 ∈ rq := by rw [hrq]; exact List.mem_map_of_mem _ this
            rw [List.isEmpty_iff] at hreq
            simp [hreq] at this
          · exact hall
        have hst : st = st1 := by
          have := pass2_all_single ci data schema schema.schema st1 hall
          rw [this] at h2
          exact (Except.ok.inj h2).symm
        have hmc : st.mc ≤ schema.schema.length := by
          rw [hst]
          simpa using pass1_mc_le ci data schema schema.schema ⟨0, [], []⟩ st1 h1
        rw [if_pos hreq] at h
        by_cases hempty : schema.schema.isEmpty
        · rw [if_pos hempty] at h
          cases h
          norm_num
        · rw [if_neg hempty] at h
          cases h
          rw [qmul_eq, qdiv_eq]
          have hlen : 0 < (schema.schema.length : ℚ) := by
            have : schema.schema ≠ [] := by
              intro hx; rw [hx] at hempty; exact hempty rfl
            have := List.length_pos.mpr this
            exact_mod_cast this
          constructor
          · positivity
          · have hdiv : (st.mc : ℚ) / (schema.schema.length : ℚ) ≤ 1 :=
              (div_le_one hlen).mpr (by exact_mod_cast hmc)
            calc (st.mc : ℚ) / (schema.schema.length : ℚ) * 100 ≤ 1 * 100 := by
                  exact mul_le_mul_of_nonneg_right hdiv (by norm_num)
              _ = 100 := by norm_num
      · rw [if_neg hreq] at h
        cases h
        rw [qmul_eq, qdiv_eq]
        have hlen : 0 < (rq.length : ℚ) := by
          have : rq ≠ [] := by
            intro hx; rw [hx] at hreq; exact hreq rfl
          have := List.length_pos.mpr this
          exact_mod_cast this
        have hcount : rq.countP (fun fn =>
            match alookup st.fms fn with
            | some m => truthyCol m.column
            | none => false) ≤ rq.length := List.countP_le_length _
        constructor
        · positivity
        · have hdiv : ((rq.countP (fun fn =>
              match alookup st.fms fn with
              | some m => truthyCol m.column
              | none => false) : ℕ) : ℚ) / (rq.length : ℚ) ≤ 1 :=
            (div_le_one hlen).mpr (by exact_mod_cast hcount)
          calc ((rq.countP (fun fn =>
              match alookup st.fms fn with
              | some m => truthyCol m.column
              | none => false) : ℕ) : ℚ) / (rq.length : ℚ) * 100 ≤ 1 * 100 :=
                mul_le_mul_of_nonneg_right hdiv (by norm_num)
            _ = 100 := by norm_num

/-- C2 witness: a one-required-field schema whose column matches exactly
scores 100, inside the proved bounds. -/
theorem match_schema_score_bounds_witness :
    (match_schema { schema := [("COMPANY", { required := some true })] } ["COMPANY"]
      [[("COMPANY", "x")]]).map Prod.fst = .ok 100 ∧ (0 ≤ (100 : ℚ) ∧ (100 : ℚ) ≤ 100) :=
  ⟨by decide,
   match_schema_score_bounds { schema := [("COMPANY", { required := some true })] }
     ["COMPANY"] [[("COMPANY", "x")]] 100 (by decide) (Or.inl (by decide))⟩

/-- Specification carried by every match the cascade can return: a claimed
column was unclaimed at call time and comes with a positive score, and a
fuzzy-typed match records a similarity above the 60 floor whose combined
score is its final score. -/
def GoodMatch (matched : List String) (m : FieldMatch) : Prop :=
  (∀ c, m.column = some c → c ∉ matched ∧ 0 < m.score) ∧
  (m.match_type = "fuzzy" → ∃ sim, m.similarity = some sim ∧ 60 < sim ∧
    m.score = qadd (qmul sim (mkRat 3 10)) (qmul m.validation.valid_percentage (mkRat 7 10)))

/-- Invariant of the running best candidate of the content pass. -/
def ContentOk (matched : List String) (bm : Option FieldMatch) : Prop :=
  ∀ m, bm = some m → (∀ c, m.column = some c → c ∉ matched) ∧ 50 < m.score ∧
    m.match_type = "content_validation"

/-- Invariant of the running best candidate of the fuzzy step. -/
def FuzzyOk (matched : List String) (bm : Option FieldMatch) : Prop :=
  ∀ m, bm = some m → (∀ c, m.column = some c → c ∉ matched) ∧ 0 < m.score ∧
    m.match_type = "fuzzy" ∧ (∃ sim, m.similarity = some sim ∧ 60 < sim ∧
      m.score = qadd (qmul sim (mkRat 3 10)) (qmul m.validation.valid_percentage (mkRat 7 10)))

theorem contentPass_spec (fn : String) (f : FieldDef) (data : List Row) (schema : Schema)
    (matched : List String) :
    ∀ (cols : List String) (best : ℚ) (bm : Option FieldMatch) (res : ℚ × Option FieldMatch),
    contentPass fn f data schema matched cols best bm = .ok res →
    ContentOk matched bm → ContentOk matched res.2 := by
  intro cols
  induction cols with
  | nil =>
    intro best bm res h hbm
    simp only [contentPass] at h
    cases h
    exact hbm
  | cons col cols ih =>
    intro best bm res h hbm
    simp only [contentPass] at h
    by_cases hc : col ∈ matched
    · rw [if_pos hc] at h
      exact ih _ _ _ h hbm
    · rw [if_neg hc] at h
      cases hv : validate_field_values col f data schema with
      | error e => simp only [hv] at h; exact Except.noConfusion h
      | ok v =>
        simp only [hv] at h
        by_cases hcond : v.valid_percentage > best ∧ v.valid_percentage > 50
        · rw [if_pos hcond] at h
          refine ih _ _ _ h ?_
          intro m hm
          cases hm
          refine ⟨fun c hc' => ?_, hcond.2, rfl⟩
          cases hc'
          exact hc
        · rw [if_neg hcond] at h
          exact ih _ _ _ h hbm

theorem pickName_spec (fn : String) (slugs ci matched : List String)
    (mt col : String) (sc : ℚ)
    (h : pickName fn slugs ci matched = some (mt, col, sc)) :
    col ∉ matched ∧ 0 < sc ∧ mt ≠ "fuzzy" := by
  unfold pickName at h
  by_cases h1 : fn ∈ ci ∧ fn ∉ matched
  · rw [if_pos h1] at h
    cases h
    exact ⟨h1.2, by norm_num, by decide⟩
  · rw [if_neg h1] at h
    cases h2 : slugs.find? (fun s => decide (s ∈ ci ∧ s ∉ matched)) with
    | some s =>
      rw [h2] at h
      cases h
      have hp := List.find?_some h2
      simp only [decide_eq_true_eq] at hp
      exact ⟨hp.2, by norm_num, by decide⟩
    | none =>
      rw [h2] at h
      cases h3 : ci.find? (fun c => decide (c ∉ matched ∧ lowerStr c = lowerStr fn)) with
      | some c =>
        rw [h3] at h
        cases h
        have hp := List.find?_some h3
        simp only [decide_eq_true_eq] at hp
        exact ⟨hp.1, by norm_num, by decide⟩
      | none =>
        rw [h3] at h
        cases h4 : ci.find? (fun c => decide (c ∉ matched ∧ lowerStr c ∈ slugs.map lowerStr)) with
        | some c =>
          rw [h4] at h
          cases h
          have hp := List.find?_some h4
          simp only [decide_eq_true_eq] at hp
          exact ⟨hp.1, by norm_num, by decide⟩
        | none =>
          rw [h4] at h
          cases h5 : ci.find? (fun c => decide (c ∉ matched ∧ normalizeName c = normalizeName fn)) with
          | some c =>
            rw [h5] at h
            cases h
            have hp := List.find?_some h5
            simp only [decide_eq_true_eq] at hp
            exact ⟨hp.1, by norm_num, by decide⟩
          | none =>
            rw [h5] at h
            exact Option.noConfusion h

theorem fuzzySlugLoop_spec (fn : String) (f : FieldDef) (data : List Row) (schema : Schema)
    (col : String) (matched : List String) (hcol : col ∉ matched) :
    ∀ (slugs : List String) (best : ℚ) (bm : Option FieldMatch) (res : ℚ × Option FieldMatch),
    fuzzySlugLoop fn f data schema col slugs best bm = .ok res →
    0 ≤ best → FuzzyOk matched bm → 0 ≤ res.1 ∧ FuzzyOk matched res.2 := by
  intro slugs
  induction slugs with
  | nil =>
    intro best bm res h hb hbm
    simp only [fuzzySlugLoop] at h
    cases h
    exact ⟨hb, hbm⟩
  | cons slug rest ih =>
    intro best bm res h hb hbm
    simp only [fuzzySlugLoop] at h
    by_cases hsim : qmul (levSim (replaceChar (lowerStr slug) '_' ' ')
        (replaceChar (lowerStr col) '_' ' ')) 100 > best ∧
        qmul (levSim (replaceChar (lowerStr slug) '_' ' ')
          (replaceChar (lowerStr col) '_' ' ')) 100 > 60
    · rw [if_pos hsim] at h
      cases hv : validate_field_values col f data schema with
      | error e => simp only [hv] at h; exact Except.noConfusion h
      | ok v =>
        simp only [hv] at h
        by_cases hcomb : qadd (qmul (qmul (levSim (replaceChar (lowerStr slug) '_' ' ')
            (replaceChar (lowerStr col) '_' ' ')) 100) (mkRat 3 10))
            (qmul v.valid_percentage (mkRat 7 10)) > best
        · rw [if_pos hcomb] at h
          refine ih _ _ _ h (le_of_lt (lt_of_le_of_lt hb hcomb)) ?_
          intro m hm
          cases hm
          refine ⟨fun c hc' => ?_, lt_of_le_of_lt hb hcomb, rfl, ?_⟩
          · cases hc'; exact hcol
          · exact ⟨_, rfl, hsim.2, rfl⟩
        · rw [if_neg hcomb] at h
          exact ih _ _ _ h hb hbm
    · rw [if_neg hsim] at h
      exact ih _ _ _ h hb hbm

theorem fuzzyColLoop_spec (fn : String) (f : FieldDef) (data : List Row) (schema : Schema)
    (matched slugs : List String) :
    ∀ (cols : List String) (best : ℚ) (bm : Option FieldMatch) (res : ℚ × Option FieldMatch),
    fuzzyColLoop fn f data schema matched slugs cols best bm = .ok res →
    0 ≤ best → FuzzyOk matched bm → FuzzyOk matched res.2 := by
  intro cols
  induction cols with
  | nil =>
    intro best bm res h hb hbm
    simp only [fuzzyColLoop] at h
    cases h
    exact hbm
  | cons col cols ih =>
    intro best bm res h hb hbm
    simp only [fuzzyColLoop] at h
    by_cases hc : col ∈ matched
    · rw [if_pos hc] at h
      exact ih _ _ _ h hb hbm
    · rw [if_neg hc] at h
      cases hs : fuzzySlugLoop fn f data schema col slugs best bm with
      | error e => simp only [hs] at h; exact Except.noConfusion h
      | ok p =>
        simp only [hs] at h
        have := fuzzySlugLoop_spec fn f data schema col matched hc slugs best bm p hs hb hbm
        exact ih _ _ _ h this.1 this.2

theorem afterContent_spec (fn : String) (f : FieldDef) (ci : List String)
    (data : List Row) (schema : Schema) (matched slugs : List String)
    (bcm : Option FieldMatch) (m : FieldMatch)
    (h : afterContent fn f ci data schema matched slugs bcm = .ok m)
    (hbcm : ContentOk matched bcm) : GoodMatch matched m := by
  unfold afterContent at h
  cases hp : pickName fn slugs ci matched with
  | some t =>
    obtain ⟨mt, col, sc⟩ := t
    simp only [hp] at h
    cases hv : validate_field_values col f data schema with
    | error e => simp only [hv] at h; exact Except.noConfusion h
    | ok v =>
      simp only [hv] at h
      cases h
      have hspec := pickName_spec fn slugs ci matched mt col sc hp
      constructor
      · intro c hc'
        cases hc'
        exact ⟨hspec.1, hspec.2.1⟩
      · intro hft
        exact absurd hft hspec.2.2
  | none =>
    simp only [hp] at h
    cases hf : fuzzyColLoop fn f data schema matched slugs ci 0 none with
    | error e => simp only [hf] at h; exact Except.noConfusion h
    | ok p =>
      have hfz := fuzzyColLoop_spec fn f data schema matched slugs ci 0 none p hf
        (le_refl 0) (fun m hm => Option.noConfusion hm)
      obtain ⟨q, bm'⟩ := p
      cases bm' with
      | some mF =>
        simp only [hf] at h
        have hEq := Except.ok.inj h
        rw [← hEq]
        have := hfz mF rfl
        exact ⟨fun c hc' => ⟨(this.1 c hc'), this.2.1⟩, fun _ => this.2.2.2⟩
      | none =>
        simp only [hf] at h
        cases bcm with
        | some mC =>
          have hEq := Except.ok.inj h
          rw [← hEq]
          have := hbcm mC rfl
          constructor
          · intro c hc'
            exact ⟨this.1 c hc', lt_trans (by norm_num) this.2.1⟩
          · intro hft
            rw [this.2.2] at hft
            exact absurd hft (by decide)
        | none =>
          have hEq := Except.ok.inj h
          rw [← hEq]
          constructor
          · intro c hc'
            exact Option.noConfusion hc'
          · intro hft
            have hnm : (noneMatch fn).match_type = "none" := rfl
            rw [hnm] at hft
            exact absurd hft (by decide)

theorem find_best_spec (fn : String) (f : FieldDef) (ci : List String) (data : List Row)
    (schema : Schema) (matched : List String) (m : FieldMatch)
    (h : find_best_column_match fn f ci data schema matched = .ok m) :
    GoodMatch matched m := by
  unfold find_best_column_match at h
  cases hcp : contentPass fn f data schema matched ci 0 none with
  | error e => simp only [hcp] at h; exact Except.noConfusion h
  | ok p =>
    have hco := contentPass_spec fn f data schema matched ci 0 none p hcp
      (fun m hm => Option.noConfusion hm)
    obtain ⟨bcs, bcm⟩ := p
    cases bcm with
    | some mC =>
      simp only [hcp] at h
      by_cases hgt : bcs > 70
      · rw [if_pos hgt] at h
        have hEq := Except.ok.inj h
        rw [← hEq]
        have := hco mC rfl
        constructor
        · intro c hc'
          exact ⟨this.1 c hc', lt_trans (by norm_num) this.2.1⟩
        · intro hft
          rw [this.2.2] at hft
          exact absurd hft (by decide)
      · rw [if_neg hgt] at h
        exact afterContent_spec fn f ci data schema matched _ _ m h hco
    | none =>
      simp only [hcp] at h
      exact afterContent_spec fn f ci data schema matched _ _ m h hco

/-- C8 (amended): the fuzzy step's floor survives and the score formula holds
for the returned candidate — whenever `find_best_column_match` returns a match
with `match_type = "fuzzy"`, its recorded similarity exceeds 60 and its score
is `similarity·0.3 + content_validation_score·0.7` for its own column — but,
as the counterexample shows, that score need not be the maximum combined
score over all candidates above the similarity floor, because a candidate is
only examined when its similarity also exceeds the running best score. -/
theorem fuzzy_result_facts (fn : String) (f : FieldDef) (ci : List String) (data : List Row)
    (schema : Schema) (matched : List String) (m : FieldMatch)
    (h : find_best_column_match fn f ci data schema matched = .ok m)
    (hft : m.match_type = "fuzzy") :
    ∃ sim, m.similarity = some sim ∧ 60 < sim ∧
      m.score = qadd (qmul sim (mkRat 3 10)) (qmul m.validation.valid_percentage (mkRat 7 10)) :=
  (find_best_spec fn f ci data schema matched m h).2 hft

/-- C8 witness: the fuzzy scenario's returned match satisfies the proved
floor and score formula. -/
theorem fuzzy_result_facts_witness :
    ∃ m, find_best_column_match "F" fuzzyField fuzzyCols fuzzyData fuzzySchema [] = .ok m ∧
      m.match_type = "fuzzy" ∧ ∃ sim, m.similarity = some sim ∧ 60 < sim ∧
        m.score = qadd (qmul sim (mkRat 3 10))
          (qmul m.validation.valid_percentage (mkRat 7 10)) := by
  have hmt : (find_best_column_match "F" fuzzyField fuzzyCols fuzzyData fuzzySchema []).map
      (fun m => m.match_type) = .ok "fuzzy" := by decide
  cases hm : find_best_column_match "F" fuzzyField fuzzyCols fuzzyData fuzzySchema [] with
  | error e => rw [hm] at hmt; exact Except.noConfusion hmt
  | ok m =>
    rw [hm] at hmt
    simp only [Except.map] at hmt
    have hft : m.match_type = "fuzzy" := Except.ok.inj hmt
    exact ⟨m, rfl, hft, fuzzy_result_facts "F" fuzzyField fuzzyCols fuzzyData fuzzySchema []
      m hm hft⟩

theorem colOf_column {m : FieldMatch} {c : String} (h : colOf m = some c) :
    m.column = some c ∧ c ≠ "" := by
  cases hm : m.column with
  | none =>
    unfold colOf at h
    simp only [hm] at h
    exact Option.noConfusion h
  | some c' =>
    unfold colOf at h
    simp only [hm] at h
    by_cases hc' : c' = ""
    · rw [if_pos hc'] at h; exact Option.noConfusion h
    · rw [if_neg hc'] at h
      cases h
      exact ⟨rfl, hc'⟩

theorem claimedCols_cons (p : String × FieldMatch) (l : List (String × FieldMatch)) :
    claimedCols (p :: l) =
      (match colOf p.2 with
       | some c => c :: claimedCols l
       | none => claimedCols l) := by
  unfold claimedCols
  rw [List.filterMap_cons]
  cases colOf p.2 <;> rfl

theorem claimedCols_dinsert_subset (k : String) (v : FieldMatch) :
    ∀ (l : List (String × FieldMatch)) (x : String), x ∈ claimedCols (dinsert k v l) →
    x ∈ claimedCols l ∨ colOf v = some x := by
  intro l
  induction l with
  | nil =>
    intro x hx
    rw [show dinsert k v [] = [(k, v)] from rfl, claimedCols_cons] at hx
    cases hcv : colOf v with
    | none => rw [hcv] at hx; exact absurd hx (by simp [claimedCols])
    | some c =>
      rw [hcv] at hx
      rcases List.mem_cons.mp hx with h | h
      · exact Or.inr (by rw [h])
      · exact absurd h (by simp [claimedCols])
  | cons p rest ih =>
    intro x hx
    obtain ⟨k', v'⟩ := p
    by_cases hk : k' = k
    · rw [show dinsert k v ((k', v') :: rest) = (k, v) :: rest from by
        simp [dinsert, hk]] at hx
      rw [claimedCols_cons] at hx
      cases hcv : colOf v with
      | none =>
        rw [hcv] at hx
        exact Or.inl (by rw [claimedCols_cons]; cases hcv' : colOf v' <;> simp [hx])
      | some c =>
        rw [hcv] at hx
        rcases List.mem_cons.mp hx with h | h
        · exact Or.inr (by rw [h])
        · exact Or.inl (by rw [claimedCols_cons]; cases hcv' : colOf v' <;> simp [h])
    · rw [show dinsert k v ((k', v') :: rest) = (k', v') :: dinsert k v rest from by
        simp [dinsert, hk]] at hx
      rw [claimedCols_cons] at hx
      rw [claimedCols_cons]
      cases hcv' : colOf v' with
      | none =>
        rw [hcv'] at hx
        exact ih x hx
      | some c' =>
        rw [hcv'] at hx
        rcases List.mem_cons.mp hx with h | h
        · exact Or.inl (by rw [h]; exact List.mem_cons_self _ _)
        · rcases ih x h with h2 | h2
          · exact Or.inl (List.mem_cons_of_mem _ h2)
          · exact Or.inr h2

theorem claimedCols_dinsert_nodup (k : String) (v : FieldMatch) :
    ∀ (l : List (String × FieldMatch)), (claimedCols l).Nodup →
    (∀ c, colOf v = some c → c ∉ claimedCols l) →
    (claimedCols (dinsert k v l)).Nodup := by
  intro l
  induction l with
  | nil =>
    intro _ _
    rw [show dinsert k v [] = [(k, v)] from rfl, claimedCols_cons]
    cases colOf v <;> simp [claimedCols]
  | cons p rest ih =>
    intro hnd hnew
    obtain ⟨k', v'⟩ := p
    rw [claimedCols_cons] at hnd
    by_cases hk : k' = k
    · rw [show dinsert k v ((k', v') :: rest) = (k, v) :: rest from by
        simp [dinsert, hk]]
      rw [claimedCols_cons]
      have hndr : (claimedCols rest).Nodup := by
        cases hcv' : colOf v' with
        | none => rw [hcv'] at hnd; exact hnd
        | some c' => rw [hcv'] at hnd; exact (List.nodup_cons.mp hnd).2
      cases hcv : colOf v with
      | none => exact hndr
      | some c =>
        refine List.nodup_cons.mpr ⟨?_, hndr⟩
        intro hin
        refine hnew c hcv ?_
        rw [claimedCols_cons]
        cases hcv' : colOf v' with
        | none => exact hin
        | some c' => exact List.mem_cons_of_mem _ hin
    · rw [show dinsert k v ((k', v') :: rest) = (k', v') :: dinsert k v rest from by
        simp [dinsert, hk]]
      rw [claimedCols_cons]
      cases hcv' : colOf v' with
      | none =>
        rw [hcv'] at hnd
        refine ih hnd ?_
        intro c hc hcin
        refine hnew c hc ?_
        rw [claimedCols_cons, hcv']
        exact hcin
      | some c' =>
        rw [hcv'] at hnd
        have hnd' := List.nodup_cons.mp hnd
        refine List.nodup_cons.mpr ⟨?_, ?_⟩
        · intro hin
          rcases claimedCols_dinsert_subset k v rest c' hin with h2 | h2
          · exact hnd'.1 h2
          · refine hnew c' h2 ?_
            rw [claimedCols_cons, hcv']
            exact List.mem_cons_self _ _
        · refine ih hnd'.2 ?_
          intro c hc hcin
          refine hnew c hc ?_
          rw [claimedCols_cons, hcv']
          exact List.mem_cons_of_mem _ hcin

/-- The invariant `match_schema`'s passes maintain: every claimed non-empty
column is in `matched_columns`, and the claimed non-empty columns are
pairwise distinct. -/
def MSInv (st : MatchState) : Prop :=
  (∀ c ∈ claimedCols st.fms, c ∈ st.matched) ∧ (claimedCols st.fms).Nodup

theorem msinv_insert (st : MatchState) (fn : String) (bm : FieldMatch) (mc' : Nat)
    (matched' : List String)
    (hinv : MSInv st)
    (hsub : ∀ x ∈ st.matched, x ∈ matched')
    (hbm : ∀ c, bm.column = some c → c ∉ st.matched)
    (hcl : ∀ c, colOf bm = some c → c ∈ matched') :
    MSInv ⟨mc', dinsert fn bm st.fms, matched'⟩ := by
  constructor
  · intro c hc
    rcases claimedCols_dinsert_subset fn bm st.fms c hc with h | h
    · exact hsub c (hinv.1 c h)
    · exact hcl c h
  · refine claimedCols_dinsert_nodup fn bm st.fms hinv.2 ?_
    intro c hcv hcin
    exact hbm c (colOf_column hcv).1 (hinv.1 c hcin)

theorem pass1_inv (ci : List String) (data : List Row) (schema : Schema) :
    ∀ (fields : List (String × FieldDef)) (st res : MatchState), MSInv st →
    pass1 ci data schema fields st = .ok res → MSInv res := by
  intro fields
  induction fields with
  | nil =>
    intro st res hinv h
    simp only [pass1] at h
    cases h
    exact hinv
  | cons p rest ih =>
    intro st res hinv h
    obtain ⟨fn, fd⟩ := p
    simp only [pass1] at h
    by_cases hmm : fd.max_matches.getD 1 > 1
    · rw [if_pos hmm] at h
      exact ih st res hinv h
    · rw [if_neg hmm] at h
      cases hfb : find_best_column_match fn fd ci data schema st.matched with
      | error e => simp only [hfb] at h; exact Except.noConfusion h
      | ok bm =>
        simp only [hfb] at h
        have hgm := (find_best_spec fn fd ci data schema st.matched bm hfb).1
        rcases hcol : bm.column with _ | c
        · simp only [hcol] at h
          refine ih _ res ?_ h
          exact msinv_insert st fn bm st.mc st.matched hinv (fun x hx => hx)
            (fun c hc => (hgm c hc).1)
            (fun c hc => absurd ((colOf_column hc).1.symm.trans hcol) (by simp))
        · simp only [hcol] at h
          by_cases hsc : bm.score > 0 ∧ c ≠ ""
          · rw [if_pos hsc] at h
            refine ih _ res ?_ h
            refine msinv_insert st fn bm (st.mc + 1) (st.matched ++ [c]) hinv
              (fun x hx => List.mem_append_left _ hx)
              (fun c' hc' => (hgm c' hc').1) ?_
            intro c' hc'
            have := (colOf_column hc').1
            rw [hcol] at this
            cases this
            exact List.mem_append_right _ (List.mem_singleton.mpr rfl)
          · rw [if_neg hsc] at h
            refine ih _ res ?_ h
            refine msinv_insert st fn bm st.mc st.matched hinv (fun x hx => hx)
              (fun c' hc' => (hgm c' hc').1) ?_
            intro c' hc'
            exfalso
            obtain ⟨hcc, hcne⟩ := colOf_column hc'
            rw [hcol] at hcc
            cases hcc
            exact hsc ⟨(hgm _ hcol).2, hcne⟩

theorem pass2loop_inv (fn : String) (fd : FieldDef) (ci : List String) (data : List Row)
    (schema : Schema) :
    ∀ (fuel k : Nat) (st res : MatchState), MSInv st →
    pass2loop fn fd ci data schema fuel k st = .ok res → MSInv res := by
  intro fuel
  induction fuel with
  | zero =>
    intro k st res hinv h
    simp only [pass2loop] at h
    cases h
    exact hinv
  | succ n ih =>
    intro k st res hinv h
    simp only [pass2loop] at h
    cases hfb : find_best_column_match fn fd ci data schema st.matched with
    | error e => simp only [hfb] at h; exact Except.noConfusion h
    | ok am =>
      simp only [hfb] at h
      have hgm := (find_best_spec fn fd ci data schema st.matched am hfb).1
      rcases hcol : am.column with _ | c
      · simp only [hcol] at h
        cases h
        exact hinv
      · simp only [hcol] at h
        by_cases hsc : am.score > 0 ∧ c ≠ ""
        · rw [if_pos hsc] at h
          refine ih _ _ res ?_ h
          refine msinv_insert st (fn ++ "_" ++ toString (k + 1)) am (st.mc + 1)
            (st.matched ++ [c]) hinv (fun x hx => List.mem_append_left _ hx)
            (fun c' hc' => (hgm c' hc').1) ?_
          intro c' hc'
          have := (colOf_column hc').1
          rw [hcol] at this
          cases this
          exact List.mem_append_right _ (List.mem_singleton.mpr rfl)
        · rw [if_neg hsc] at h
          cases h
          exact hinv

theorem pass2field_inv (ci : List String) (data : List Row) (schema : Schema)
    (fn : String) (fd : FieldDef) (st res : MatchState) (hinv : MSInv st)
    (h : pass2field ci data schema fn fd st = .ok res) : MSInv res := by
  simp only [pass2field] at h
  by_cases hmm : fd.max_matches.getD 1 ≤ 1
  · rw [if_pos hmm] at h
    cases h
    exact hinv
  · rw [if_neg hmm] at h
    by_cases hprim : (match alookup st.fms fn with
        | some m => decide (m.score > 0) && truthyCol m.column
        | none => false) = true
    · rw [if_pos hprim] at h
      exact pass2loop_inv fn fd ci data schema _ _ st res hinv h
    · rw [if_neg hprim] at h
      cases hfb : find_best_column_match fn fd ci data schema st.matched with
      | error e => simp only [hfb] at h; exact Except.noConfusion h
      | ok bm =>
        simp only [hfb] at h
        have hgm := (find_best_spec fn fd ci data schema st.matched bm hfb).1
        rcases hcol : bm.column with _ | c
        · simp only [hcol] at h
          refine pass2loop_inv fn fd ci data schema _ _ _ res ?_ h
          exact msinv_insert st fn bm st.mc st.matched hinv (fun x hx => hx)
            (fun c hc => (hgm c hc).1)
            (fun c hc => absurd ((colOf_column hc).1.symm.trans hcol) (by simp))
        · simp only [hcol] at h
          by_cases hsc : bm.score > 0 ∧ c ≠ ""
          · rw [if_pos hsc] at h
            refine pass2loop_inv fn fd ci data schema _ _ _ res ?_ h
            refine msinv_insert st fn bm (st.mc + 1) (st.matched ++ [c]) hinv
              (fun x hx => List.mem_append_left _ hx)
              (fun c' hc' => (hgm c' hc').1) ?_
            intro c' hc'
            have := (colOf_column hc').1
            rw [hcol] at this
            cases this
            exact List.mem_append_right _ (List.mem_singleton.mpr rfl)
          · rw [if_neg hsc] at h
            refine pass2loop_inv fn fd ci data schema _ _ _ res ?_ h
            refine msinv_insert st fn bm st.mc st.matched hinv (fun x hx => hx)
              (fun c' hc' => (hgm c' hc').1) ?_
            intro c' hc'
            exfalso
            obtain ⟨hcc, hcne⟩ := colOf_column hc'
            rw [hcol] at hcc
            cases hcc
            exact hsc ⟨(hgm _ hcol).2, hcne⟩

theorem pass2_inv (ci : List String) (data : List Row) (schema : Schema) :
    ∀ (fields : List (String × FieldDef)) (st res : MatchState), MSInv st →
    pass2 ci data schema fields st = .ok res → MSInv res := by
  intro fields
  induction fields with
  | nil =>
    intro st res hinv h
    simp only [pass2] at h
    cases h
    exact hinv
  | cons p rest ih =>
    intro st res hinv h
    obtain ⟨fn, fd⟩ := p
    simp only [pass2] at h
    cases hpf : pass2field ci data schema fn fd st with
    | error e => simp only [hpf] at h; exact Except.noConfusion h
    | ok st' =>
      simp only [hpf] at h
      exact ih st' res (pass2field_inv ci data schema fn fd st st' hinv hpf) h

/-- C4 (amended): within one schema's matching pass, every non-empty column
name is claimed by at most one entry of the field-match map — across the
`max_matches = 1` fields and the synthetic `"{field}_{k}"` entries alike, the
claimed non-empty column names are pairwise distinct.  The restriction to
non-empty names is forced by the counterexample: a column literally named by
the empty string is never marked claimed (Python truthiness) and can be bound
to several fields. -/
theorem match_schema_claimed_columns_distinct (schema : Schema) (ci : List String)
    (data : List Row) (score : ℚ) (fms : List (String × FieldMatch))
    (h : match_schema schema ci data = .ok (score, fms)) :
    (claimedCols fms).Nodup := by
  simp only [match_schema] at h
  cases h1 : pass1 ci data schema schema.schema ⟨0, [], []⟩ with
  | error e => simp only [h1] at h; exact Except.noConfusion h
  | ok st1 =>
    simp only [h1] at h
    cases h2 : pass2 ci data schema schema.schema st1 with
    | error e => simp only [h2] at h; exact Except.noConfusion h
    | ok st =>
      simp only [h2] at h
      have i0 : MSInv ⟨0, [], []⟩ := ⟨fun c hc => by simp [claimedCols] at hc, by
        simp [claimedCols]⟩
      have i1 := pass1_inv ci data schema schema.schema _ st1 i0 h1
      have i2 := pass2_inv ci data schema schema.schema st1 st i1 h2
      have hfms : fms = st.fms := (Prod.mk.injEq _ _ _ _ ▸ (Except.ok.inj h)).2.symm
      rw [hfms]
      exact i2.2

/-- C4 witness: a concrete run of `match_schema` whose claimed columns are
pairwise distinct. -/
theorem match_schema_claimed_columns_distinct_witness :
    ∃ score fms, match_schema pairSchema ["A", "B"] [[("A", "x"), ("B", "y")]] =
      .ok (score, fms) ∧ (claimedCols fms).Nodup := by
  have hsome : (match_schema pairSchema ["A", "B"]
      [[("A", "x"), ("B", "y")]]).toOption.isSome = true := by decide
  cases hm : match_schema pairSchema ["A", "B"] [[("A", "x"), ("B", "y")]] with
  | error e => rw [hm] at hsome; simp [Except.toOption] at hsome
  | ok p =>
    obtain ⟨sc, fms⟩ := p
    exact ⟨sc, fms, rfl, match_schema_claimed_columns_distinct pairSchema
      ["A", "B"] [[("A", "x"), ("B", "y")]] sc fms hm⟩

end Validator
